import Mathlib

/-!
Verification of the `hanabi-endgames` infeasibility solver.

This file gives a shallow embedding, in Lean 4, of the Python code in
`src/endgames/game/study.py` and `src/endgames/game/util.py` of the
`hm1298/hanabi-endgames` repository, together with theorems about the
embedded definitions.  Python lists indexed by possibly negative indices
are modelled by `pyGetD`/`pyIndex` (negative indices wrap around, as in
Python; an out-of-range access on a checked read is an `indexError`).
Python `set`s of integers are modelled as duplicate-free `List Nat`
values (`sAdd`/`sRemove`); only membership, size and removal are ever
used by the source, so the representation order is irrelevant.
Fallible Python code (dict lookups, `min`/`max` of possibly-empty
collections, `assert`, `list.index`, …) is modelled in the `Except PyErr`
monad.  `while` loops are translated to structurally recursive
functions; each carries either an explicit decreasing counter taken from
the loop (`pace < max score` becomes a count of remaining iterations) or
a fuel parameter that is large enough never to be exhausted on the
executions the theorems talk about (exhaustion is an explicit error, so
an `Except.ok` hypothesis rules it out).
-/

namespace HanabiEndgames

/-- Python runtime errors that the embedded code can raise. -/
inductive PyErr where
  | indexError
  | keyError
  | valueError
  | typeError
  | assertionError
  | attributeError
  | fuelError
deriving DecidableEq, Repr

/-- Python list read `l[i]` with wrap-around for negative indices and a
default value when the index is out of range either way (the source only
performs such reads in range, which the theorems ensure through
well-formedness hypotheses). -/
def pyGetD {α : Type} (l : List α) (d : α) (i : Int) : α :=
  l.getD (Int.toNat (i % (l.length : Int))) d

/-- Checked Python list read `l[i]`: wrap-around for `-len ≤ i < len`,
`IndexError` otherwise. -/
def pyIndex {α : Type} (l : List α) (i : Int) : Except PyErr α :=
  if -(l.length : Int) ≤ i ∧ i < (l.length : Int) then
    match l.get? (Int.toNat (i % (l.length : Int))) with
    | some x => Except.ok x
    | none => Except.error PyErr.indexError
  else Except.error PyErr.indexError

/-- Python list write `l[i] = x` with wrap-around for negative indices
(out-of-range writes are dropped; the source never performs them in the
situations the theorems describe). -/
def pySet {α : Type} (l : List α) (i : Int) (x : α) : List α :=
  l.set (Int.toNat (i % (l.length : Int))) x

/-- `min` of a Python iterable of ints (raises `ValueError` on empty). -/
def pyMin (l : List Int) : Except PyErr Int :=
  match l with
  | [] => Except.error PyErr.valueError
  | a :: rest => Except.ok (rest.foldl min a)

/-- `max` of a Python iterable of ints (raises `ValueError` on empty). -/
def pyMax (l : List Int) : Except PyErr Int :=
  match l with
  | [] => Except.error PyErr.valueError
  | a :: rest => Except.ok (rest.foldl max a)

/-- Python dict read `d[k]` for an `Int`-keyed dict modelled as an
association list (raises `KeyError` when the key is missing). -/
def dictGet {α : Type} (l : List (Int × α)) (k : Int) : Except PyErr α :=
  match l.find? (fun p => p.1 == k) with
  | some p => Except.ok p.2
  | none => Except.error PyErr.keyError

/-- Python dict write `d[k] = v` for a dict whose key already exists
(the source only overwrites pre-populated keys). -/
def dictSet {α : Type} (l : List (Int × α)) (k : Int) (v : α) : List (Int × α) :=
  l.map (fun p => if p.1 == k then (k, v) else p)

/-- Python `set.add` on a set of naturals modelled as a duplicate-free
list. -/
def sAdd (s : List Nat) (v : Nat) : List Nat :=
  if v ∈ s then s else s ++ [v]

/-- Python `set.remove` (raises `KeyError` when the element is absent). -/
def sRemove (s : List Nat) (v : Nat) : Except PyErr (List Nat) :=
  if v ∈ s then Except.ok (s.erase v) else Except.error PyErr.keyError

/-! ## Cards and decks (`util.py`, class `Card`) -/

/-- A card, as in `util.Card`: a suit index and a rank.  The derived
attributes `value` and `index` are modelled as functions of the two
fields, exactly as `__init__` computes them. -/
structure Card where
  suit : Nat
  rank : Nat
deriving DecidableEq, Repr

/-- `Card.value`: `(suit_index << 31) | rank`. -/
def Card.value (c : Card) : Nat := (c.suit <<< 31) ||| c.rank

/-- `Card.index`: `5 * suit + rank`. -/
def Card.index (c : Card) : Nat := 5 * c.suit + c.rank

/-- `Card.interpret()`: the pair `(suit index, rank)`. -/
def Card.interpret (c : Card) : Nat × Nat := (c.suit, c.rank)

/-- `Card.interpret()` with both coordinates as Python ints (used where
the solver mixes them with possibly negative ints). -/
def Card.interpretZ (c : Card) : Int × Int := ((c.suit : Int), (c.rank : Int))

/-- Default card handed to `pyGetD` for deck reads; the theorems restrict
attention to in-range reads, where the default is never returned. -/
def dummyCard : Card := ⟨0, 0⟩

/-- Well-formedness of a deck over `S` suits: every card has a suit index
below `S` and a rank in `1..5`.  This holds for every deck built by the
repository (any variant deck and any bespoke deck over real suits). -/
def WFDeck (S : Nat) (deck : List Card) : Prop :=
  ∀ c ∈ deck, c.suit < S ∧ 1 ≤ c.rank ∧ c.rank ≤ 5

instance (S : Nat) (deck : List Card) : Decidable (WFDeck S deck) := by
  unfold WFDeck; infer_instance

/-! ## `study.PathFinder`: construction and the two arithmetic filters -/

/-- The `study.PathFinder` state: the deck, the number of suits of the
deck's variant (`len(self.deck.variant.suits)`), the number of players
and the hand size.  `__init__` computes `capacity = hand_size *
num_players`, modelled by `PathFinder.capacity`. -/
structure PathFinder where
  deck : List Card
  suitsCount : Nat
  numPlayers : Nat
  handSize : Nat
deriving Repr

/-- `self.capacity = hand_size * num_players`. -/
def PathFinder.capacity (pf : PathFinder) : Nat := pf.handSize * pf.numPlayers

/-- The variant's maximum score `5 * len(self.deck.variant.suits)`. -/
def PathFinder.maxScore (pf : PathFinder) : Nat := 5 * pf.suitsCount

/-- `PathFinder._pathify`: converts a list of locations into a boolean
path over the deck positions. -/
def pathify (pf : PathFinder) (locs : List Int) : List Bool :=
  locs.foldl (fun path loc => pySet path loc true) (List.replicate pf.deck.length false)

/-- The stack update performed at each position of the right-to-left
pace walks (`_check_for_pace_loss` and `_get_pace_breakpoints`): when
the path uses `index`, raise that suit's pinned plays to
`max(stacks[suit], 6 - rank)`. -/
def paceStep (deck : List Card) (path : List Bool) (stks : List Nat) (index : Int) :
    List Nat :=
  if pyGetD path false index then
    let c := pyGetD deck dummyCard index
    stks.set c.suit (max (stks.getD c.suit 0) (6 - c.rank))
  else stks

/-- The body of the `while pace < maxScore` loop of
`PathFinder._check_for_pace_loss`.  The first argument counts the
remaining iterations (`maxScore - pace`), kept in lockstep with the
carried `pace`. -/
def paceLossLoop (deck : List Card) (path : List Bool) :
    Nat → Nat → Int → List Nat → Bool
  | 0, _, _, _ => false
  | rem + 1, pace, index, stks =>
    let pace := pace + 1
    let index := index - 1
    let stks := paceStep deck path stks index
    if stks.sum > pace then true
    else paceLossLoop deck path rem pace index stks

/-- `PathFinder._check_for_pace_loss(path, num_final_plays)`: walks the
deck right-to-left tracking per-suit bottom-deck risk; reports a pace
loss if the pinned plays ever exceed the available pace.  The special
case first: if the last deck position is used by the path and its card
is not a rank 5, the check fails immediately; otherwise the initial
stack update of the source (performed only when the position is used)
is exactly `paceStep` at the last position. -/
def checkForPaceLoss (pf : PathFinder) (path : List Bool) (numFinalPlays : Nat) : Bool :=
  let index : Int := (pf.deck.length : Int) - 1
  let curr := pyGetD path false index
  let stks : List Nat := List.replicate pf.suitsCount 0
  if curr && !((pyGetD pf.deck dummyCard index).rank == 5) then true
  else
    paceLossLoop pf.deck path (pf.maxScore - numFinalPlays) numFinalPlays index
      (paceStep pf.deck path stks index)

/-- The cascade of `PathFinder._check_for_capacity_loss`: `while
newly_playable in hand: hand.remove(newly_playable); newly_playable += 1;
stks[suit] += 1`.  Returns the remaining hand and the number of extra
plays.  The fuel is the hand size, which bounds the number of removals;
when it reaches zero the hand is empty and the loop is over, so the
translation is exact. -/
def cascade : Nat → List Nat → Nat → List Nat × Nat
  | 0, hand, _ => (hand, 0)
  | fuel + 1, hand, np =>
    if np ∈ hand then
      let r := cascade fuel (hand.erase np) (np + 1)
      (r.1, r.2 + 1)
    else (hand, 0)

/-- The main loop of `PathFinder._check_for_capacity_loss`, walking the
path left to right with the running deck position. -/
def capacityLoop (deck : List Card) (capacity : Nat) :
    List Bool → Nat → List Nat → List Nat → Bool
  | [], _, _, _ => false
  | curr :: rest, idx, hand, stks =>
    if !curr then capacityLoop deck capacity rest (idx + 1) hand stks
    else
      let c := deck.getD idx dummyCard
      if stks.getD c.suit 0 == c.rank - 1 then
        let r := cascade hand.length hand (c.value + 1)
        capacityLoop deck capacity rest (idx + 1) r.1
          (stks.set c.suit (stks.getD c.suit 0 + 1 + r.2))
      else
        let hand := sAdd hand c.value
        if hand.length == capacity then true
        else capacityLoop deck capacity rest (idx + 1) hand stks

/-- `PathFinder._check_for_capacity_loss(path, capacity)`. -/
def checkForCapacityLoss (pf : PathFinder) (path : List Bool) (capacity : Nat) : Bool :=
  capacityLoop pf.deck capacity path 0 [] (List.replicate pf.suitsCount 0)


/-! ## `study.PathFinder._split_into_suits` -/

/-- A card as seen by `ShapeIdentifier`: its rank and its deck location
(`Card.rank` / `Card.location`; locations are set by
`Deck._set_card_locations` to the card's position in the deck). -/
structure LCard where
  rank : Nat
  location : Int
deriving DecidableEq, Repr

/-- Python dict update used by `_split_into_suits`: modify the value at a
key, appending the key (insertion order) when it is new. -/
def assocUpd {κ α : Type} [BEq κ] (l : List (κ × α)) (k : κ) (f : α → α) (d : α) :
    List (κ × α) :=
  if (l.find? (fun p => p.1 == k)).isSome then
    l.map (fun p => if p.1 == k then (k, f p.2) else p)
  else l ++ [(k, f d)]

/-- The accumulation loop of `_split_into_suits`: builds, in insertion
order, the `locations` dict (suit → rank → deck indices) and the `suits`
dict (suit → list of cards in deck order). -/
def splitLoop (deck : List Card) :
    List (Nat × List (Nat × List Int)) × List (Nat × List LCard) :=
  (deck.enum).foldl
    (fun acc p =>
      let (loc, c) := p
      let locations := assocUpd acc.1 c.suit
        (fun m => assocUpd m c.rank (fun ls => ls ++ [(loc : Int)]) []) []
      let suits := assocUpd acc.2 c.suit (fun cs => cs ++ [⟨c.rank, (loc : Int)⟩]) []
      (locations, suits))
    ([], [])

/-- `PathFinder._split_into_suits`: the dicts from `splitLoop` with the
ranks 1 and 5 collapsed to their earliest location in the `locations`
component. -/
def splitIntoSuits (deck : List Card) :
    List (Nat × List (Nat × List Int)) × List (Nat × List LCard) :=
  let r := splitLoop deck
  let locations := r.1.map (fun p =>
    (p.1, p.2.map (fun q =>
      if q.1 = 1 ∨ q.1 = 5 then
        (q.1, match pyMin q.2 with
              | Except.ok m => [m]
              | Except.error _ => q.2)
      else q)))
  (locations, r.2)

/-! ## `study.ShapeOptions` and `study.ShapeIdentifier` -/

/-- `study.ShapeOptions.__init__`: the stored configuration.  In
`study.py` the default `hand_capacity` is `10`, so `check_for_hand_dist`
is `hand_capacity is not None`, modelled as `handCapacity.isSome`. -/
structure ShapeOptions where
  bdrs : List Nat
  handCapacity : Option Int
  playablesPlay : Bool
deriving Repr

/-- `self.check_for_hand_dist`. -/
def ShapeOptions.checkForHandDist (o : ShapeOptions) : Bool := o.handCapacity.isSome

/-- The default options `ShapeOptions()` of `study.py`
(`bdrs = set()`, `hand_capacity = 10`, `playables_play = True`). -/
def studyDefaultOptions : ShapeOptions := ⟨[], some 10, true⟩

/-- `ShapeOptions.is_bdr(card)`: `card.rank in self.bdrs`. -/
def ShapeOptions.isBdr (o : ShapeOptions) (c : LCard) : Bool := c.rank ∈ o.bdrs

/-- The loop of `ShapeOptions.get_hand_dist_concerns`: counts card ranks
while locations stay below `hand_capacity`, recording each rank whose
count reaches 2. -/
def hdcLoop (cap : Int) : List LCard → List Nat → List Nat → List Nat
  | [], _, result => result
  | c :: rest, counts, result =>
    if c.location ≥ cap then result
    else
      let counts := counts.set c.rank (counts.getD c.rank 0 + 1)
      let result := if counts.getD c.rank 0 == 2 then result ++ [c.rank] else result
      hdcLoop cap rest counts result

/-- `ShapeOptions.get_hand_dist_concerns(cards)`. -/
def getHandDistConcerns (o : ShapeOptions) (cards : List LCard) : List Nat :=
  if !o.checkForHandDist then []
  else
    match o.handCapacity with
    | some cap => hdcLoop cap cards [0, 0, 0, 0, 0, 0] []
    | none => []

/-- The mutable scratch state of `ShapeIdentifier`
(`_locations`, `_index`, `_path`, `_playable`).  The Python `None` head
of `_locations` is a dummy empty list (it is never read as a list); an
entry `none` of `playable` is the Python `None` (a `TypeError` if
compared), and the Python `False` sentinel written by the rewinds is
modelled as `some 0`, which has exactly Python's comparison and `max`
semantics for `False`. -/
structure SIState where
  locations : List (List Int)
  index : Nat
  path : List Int
  playable : List (Option Int)
deriving DecidableEq, Repr

/-- `ShapeIdentifier._set_protected_attrs()`. -/
def siInit : SIState :=
  ⟨[[], [], [], [], [], []], 0, [], [none, some (-1), none, none, none, none]⟩

/-- The loop of `ShapeIdentifier.get_shape`: computes the rank ordering
and fills `_locations`, skipping an initial bottom-deck-risk copy and
every copy of a rank already marked played. -/
def getShapeLoop (o : ShapeOptions) :
    List LCard → List Bool → List Bool → List Nat → List (List Int) →
    List Nat × List (List Int)
  | [], _, _, ord, locs => (ord, locs)
  | c :: rest, isFirst, isPlayed, ord, locs =>
    if pyGetD isFirst false (c.rank : Int) && o.isBdr c then
      getShapeLoop o rest (pySet isFirst (c.rank : Int) false) isPlayed ord locs
    else if pyGetD isPlayed false (c.rank : Int) then
      getShapeLoop o rest isFirst isPlayed ord locs
    else
      let isPlayed :=
        if pyGetD isPlayed false ((c.rank : Int) - 1) then
          pySet isPlayed (c.rank : Int) true
        else isPlayed
      getShapeLoop o rest (pySet isFirst (c.rank : Int) false) isPlayed
        (ord ++ [c.rank]) (pySet locs (c.rank : Int)
          (pyGetD locs [] (c.rank : Int) ++ [c.location]))

/-- The result of `ShapeIdentifier.get_shape(cards)`: the ordering, the
hand-distribution concern ranks (`options.hand_dist(cards)`, stored by
Python in `options.sh_ranks`) and the scratch state left behind
(`_set_protected_attrs` followed by the `_locations` fills). -/
structure ShapeResult where
  ordering : List Nat
  shRanks : List Nat
  state : SIState
deriving Repr

/-- `ShapeIdentifier.get_shape(cards)`. -/
def getShape (o : ShapeOptions) (cards : List LCard) : ShapeResult :=
  let st := siInit
  let r := getShapeLoop o cards [true, true, true, true, true, true]
    [true, false, false, false, false, false] [] st.locations
  ⟨r.1, getHandDistConcerns o cards, { st with locations := r.2 }⟩

/-- The `_locations` scratch array recorded by `get_shape` for a suit:
entry `r` lists the deck locations kept for rank `r`. -/
def shapeLocations (o : ShapeOptions) (cards : List LCard) : List (List Int) :=
  (getShape o cards).state.locations

/-- Python `max(a, b)` where `b` is `_playable[rank]`: `TypeError` when
it is `None` (`some 0` stands for the Python `False`, for which `max`
behaves as for the int 0). -/
def pyMaxOpt (a : Int) (b : Option Int) : Except PyErr Int :=
  match b with
  | some v => Except.ok (max a v)
  | none => Except.error PyErr.typeError

/-- Python int value of `_playable[rank]` for a comparison; `TypeError`
when it is `None`. -/
def optIntVal (b : Option Int) : Except PyErr Int :=
  match b with
  | some v => Except.ok v
  | none => Except.error PyErr.typeError

/-- The loop of `bisect.bisect` (bisect_right): binary search for the
insertion point.  The fuel exceeds the interval width, so the loop always
finishes before the fuel does. -/
def bisectLoop (a : List Int) (x : Int) : Nat → Nat → Nat → Nat
  | 0, lo, _ => lo
  | fuel + 1, lo, hi =>
    if lo < hi then
      let mid := (lo + hi) / 2
      if x < pyGetD a 0 (mid : Int) then bisectLoop a x fuel lo mid
      else bisectLoop a x fuel (mid + 1) hi
    else lo

/-- `bisect.bisect(a, x)`. -/
def pyBisect (a : List Int) (x : Int) : Nat := bisectLoop a x (a.length + 2) 0 a.length

/-- `ShapeIdentifier._helper(location, playable)` up to the recursive
call: append the location to `_path` and records the new playability
threshold in `_playable[index + 1]` (guarded by the length check of the
source). -/
def siHelperState (st : SIState) (location playable : Int) : SIState :=
  { st with
    path := st.path ++ [location],
    playable :=
      if st.index + 1 < st.playable.length then
        st.playable.set (st.index + 1) (some playable)
      else st.playable }

/-- The state rewind performed by `identify_recurse` between branches:
`_index = rank`, `_path = _path[:rank - 1]`,
`_playable = _playable[:rank + 1] + [False] * (len(_playable) - (rank + 1))`. -/
def siRewind (rank : Nat) (st : SIState) : SIState :=
  { st with
    index := rank,
    path := st.path.take (rank - 1),
    playable := st.playable.take (rank + 1) ++
      List.replicate (st.playable.length - (rank + 1)) (some 0) }

/-- `ShapeIdentifier.identify_recurse()`, with the shared mutable state
threaded explicitly and a fuel argument decremented at each recursive
call (each call increments `_index`, whose ceiling is the length of
`_locations`, so the fuel used by `identify` is never exhausted).
Returns the collected suit paths together with the final state. -/
def identifyRecurse (o : ShapeOptions) (shRanks : List Nat) :
    Nat → SIState → Except PyErr (List (List Int) × SIState)
  | 0, _ => Except.error PyErr.fuelError
  | fuel + 1, st =>
    let st := { st with index := st.index + 1 }
    let rank : Nat := st.index
    if rank == st.locations.length then
      let answer := st.path
      Except.ok ([answer], { st with index := st.index - 1, path := st.path.dropLast })
    else do
      let locations ← pyIndex st.locations (rank : Int)
      let playable ← pyIndex st.playable (rank : Int)
      if rank ∈ shRanks then do
        let r ← locations.foldlM
          (fun (acc : List (List Int) × SIState) loc => do
            let pl ← pyMaxOpt loc playable
            let r ← identifyRecurse o shRanks fuel (siHelperState acc.2 loc pl)
            Except.ok (acc.1 ++ r.1, siRewind rank r.2))
          ([], st)
        Except.ok r
      else do
        let pl ← optIntVal playable
        let attempt ← pyIndex locations 0
        if attempt > pl then
          identifyRecurse o shRanks fuel (siHelperState st attempt attempt)
        else do
          let attempt ← pyIndex locations (-1)
          if attempt < pl then
            identifyRecurse o shRanks fuel (siHelperState st attempt pl)
          else do
            let attempt : Int := (pyBisect locations pl : Int) - 1
            let loc1 ← pyIndex locations attempt
            let r1 ← identifyRecurse o shRanks fuel (siHelperState st loc1 pl)
            let st2 := siRewind rank r1.2
            let loc2 ← pyIndex locations (attempt + 1)
            let r2 ← identifyRecurse o shRanks fuel (siHelperState st2 loc2 loc2)
            Except.ok (r1.1 ++ r2.1, r2.2)

/-- `ShapeIdentifier.identify(cards)`: runs `get_shape` (which resets the
scratch state and sets `options.sh_ranks`) and then `identify_recurse`.
The fuel 8 exceeds the maximal recursion depth 6. -/
def identify (o : ShapeOptions) (cards : List LCard) : Except PyErr (List (List Int)) := do
  let g := getShape o cards
  let r ← identifyRecurse o g.shRanks 8 g.state
  Except.ok r.1

/-! ## `study.PathFinder`: path enumeration and the 1-player check -/

/-- `itertools.product`: Cartesian product of lists, rightmost factor
fastest, as `_suitify2` consumes it. -/
def listProd {α : Type} : List (List α) → List (List α)
  | [] => [[]]
  | l :: ls => l.flatMap (fun x => (listProd ls).map (fun r => x :: r))

/-- `PathFinder._suitify2(orderings)`: one `identify` call per suit, in
dict insertion order, then the Cartesian product of the per-suit path
lists. -/
def suitify2 (o : ShapeOptions) (orderings : List (Nat × List LCard)) :
    Except PyErr (List (List (List Int))) := do
  let paths ← orderings.mapM (fun p => identify o p.2)
  Except.ok (listProd paths)

/-- The deck paths enumerated by `check_for_infeasibility` before the
one-player check: `_split_into_suits` (the `locations` component is
discarded by the caller) followed by `_suitify2`. -/
def pipelinePaths (pf : PathFinder) (o : ShapeOptions) :
    Except PyErr (List (List (List Int))) :=
  suitify2 o (splitIntoSuits pf.deck).2

/-- `PathFinder.check_for_1p_inf(paths)`.  Every element produced by
`_suitify2` is a tuple of per-suit tuples, so the
`isinstance(path[0], tuple)` branch always fires and the path is
flattened with `itertools.chain` before `_pathify`.  Returns
`(proved_infeasible, dist_paths)`; on the `break` (a path survived the
pace-1 check) the accumulated `dist_paths` are discarded. -/
def checkFor1pInf (pf : PathFinder) : List (List (List Int)) → Bool × List (List Bool)
  | [] => (true, [])
  | p :: rest =>
    let path := pathify pf p.flatten
    if checkForCapacityLoss pf path pf.capacity then checkFor1pInf pf rest
    else if checkForPaceLoss pf path pf.numPlayers then checkFor1pInf pf rest
    else if !(checkForPaceLoss pf path 1) then (false, [])
    else
      let r := checkFor1pInf pf rest
      (r.1, path :: r.2)

/-! ## `study.PathFinder._get_pace_breakpoints` and
`_get_breakpoint_connectors` -/

/-- The loop of `_get_pace_breakpoints`, recording every index where the
pinned plays equal `pace + value`.  Same walk as `paceLossLoop`. -/
def bpLoop (deck : List Card) (path : List Bool) (value : Nat) :
    Nat → Nat → Int → List Nat → List Int → List Int
  | 0, _, _, _, acc => acc
  | rem + 1, pace, index, stks, acc =>
    let pace := pace + 1
    let index := index - 1
    let stks := paceStep deck path stks index
    let acc := if stks.sum == pace + value then acc ++ [index] else acc
    bpLoop deck path value rem pace index stks acc

/-- `PathFinder._get_pace_breakpoints(path, value)` (the call sites use
`value = 0`): the deck indices, in decreasing order, at which pace must
reach `value`.  Unlike `_check_for_pace_loss`, the initial step has no
early return. -/
def getPaceBreakpoints (pf : PathFinder) (path : List Bool) (value : Nat) : List Int :=
  let index : Int := (pf.deck.length : Int) - 1
  let stks : List Nat := List.replicate pf.suitsCount 0
  bpLoop pf.deck path value (pf.maxScore - pf.numPlayers) pf.numPlayers index
    (paceStep pf.deck path stks index) []

/-- A value of the `locs_to_entries` dict of
`_get_breakpoint_connectors`: either the string `"anything"` or a list
of `(suit_index + 1, stack)` connectors. -/
inductive ConnEntry where
  | anything
  | conns (l : List (Nat × Nat))
deriving DecidableEq, Repr

/-- The playability update shared by `_get_breakpoint_connectors` (and
`_check_for_capacity_loss` up to the capacity test): play-and-cascade
when the card is playable, otherwise hold it in hand. -/
def playStep (hand : List Nat) (stks : List Nat) (c : Card) : List Nat × List Nat :=
  if stks.getD c.suit 0 == c.rank - 1 then
    let r := cascade hand.length hand (c.value + 1)
    (r.1, stks.set c.suit (stks.getD c.suit 0 + 1 + r.2))
  else (sAdd hand c.value, stks)

/-- The loop of `_get_breakpoint_connectors`: forward walk over the path
popping the pending breakpoint locations; at each breakpoint it records
the stack snapshot and, once pace zero has been reached before, the
newly finished `(suit, stack)` connectors.  Reading `locations[-1]` on an
empty list is the `IndexError` Python would raise. -/
def connectorsLoop (deck : List Card) :
    List Bool → Nat → List Int → List (Int × ConnEntry) → List (Int × List Nat) →
    List Nat → List Nat → List Nat → Bool →
    Except PyErr (List (Int × ConnEntry) × List (Int × List Nat))
  | [], _, _, e, s, _, _, _, _ => Except.ok (e, s)
  | curr :: rest, idx, locs, e, s, hand, stks, prev, rpz =>
    if !curr then connectorsLoop deck rest (idx + 1) locs e s hand stks prev rpz
    else do
      let c := deck.getD idx dummyCard
      let last ← pyIndex locs (-1)
      if (idx : Int) == last then
        let locs := locs.dropLast
        let currT := stks
        let s := dictSet s (idx : Int) currT
        let e :=
          if rpz then
            let diff := List.zipWith (fun a b => (a : Int) - (b : Int)) currT prev
            let cs := (diff.enum.filter (fun p => p.2 > 0)).map
              (fun p => (p.1 + 1, currT.getD p.1 0))
            dictSet e (idx : Int) (ConnEntry.conns cs)
          else dictSet e (idx : Int) ConnEntry.anything
        if locs.length == 0 then Except.ok (e, s)
        else
          let r := playStep hand stks c
          connectorsLoop deck rest (idx + 1) locs e s r.1 r.2 currT true
      else
        let r := playStep hand stks c
        connectorsLoop deck rest (idx + 1) locs e s r.1 r.2 prev rpz

/-- `PathFinder._get_breakpoint_connectors(path, locations)`. -/
def getBreakpointConnectors (pf : PathFinder) (path : List Bool) (locations : List Int) :
    Except PyErr (List (Int × ConnEntry) × List (Int × List Nat)) :=
  connectorsLoop pf.deck path 0 locations
    (locations.map (fun l => (l, ConnEntry.conns [])))
    (locations.map (fun l => (l, ([] : List Nat))))
    [] (List.replicate pf.suitsCount 0) (List.replicate pf.suitsCount 0) false

/-! ## `study.PathFinder._solve_breakpoint` -/

/-- Step 1 of `_solve_breakpoint`: the starting-hand-1 cards kept by the
path (`interpret()` pairs of `deck[0:5]` at true path positions). -/
def sbHand1 (deck : List Card) (path : List Bool) : List (Int × Int) :=
  ((deck.take 5).enum.filter (fun p => path.getD p.1 false)).map (fun p => p.2.interpretZ)

/-- Step 1: the starting-hand-2 cards kept by the path (`deck[5:10]`,
path read at `index + 5`). -/
def sbHand2 (deck : List Card) (path : List Bool) : List (Int × Int) :=
  (((deck.drop 5).take 5).enum.filter (fun p => path.getD (p.1 + 5) false)).map
    (fun p => p.2.interpretZ)

/-- Step 1: drop the hand cards already played at the first breakpoint
(`stacks[tup[0]] < tup[1]`). -/
def sbFilterHand (stks : List Nat) (h : List (Int × Int)) : List (Int × Int) :=
  h.filter (fun t => ((pyGetD stks 0 t.1 : Nat) : Int) < t.2)

/-- Step 1: the cards drawn at pace zero (`deck[location:]` at true path
positions, path read at `index + location`). -/
def sbPace0 (deck : List Card) (path : List Bool) (location : Int) : List (Int × Int) :=
  ((deck.drop location.toNat).enum.filter
    (fun p => path.getD (p.1 + location.toNat) false)).map (fun p => p.2.interpretZ)

/-- Step 3: the suit indices whose stack at the chosen breakpoint is
below `r` (`enumerate(stacks)` filtered by `value < r`). -/
def sbSuitsBelow (stks : List Nat) (r : Nat) : List Int :=
  (stks.enum.filter (fun p => p.2 < r)).map (fun p => ((p.1 : Int)))

/-- `PathFinder._assign_helper(t, h1, h2, anti)`: whether the two cards
of `t` are forced into one hand (`anti = false`: both in the same
starting hand) or into different hands (`anti = true`). -/
def assignHelper (t : (Int × Int) × (Int × Int)) (h1 h2 : List (Int × Int))
    (anti : Bool) : Bool :=
  if !anti then (h1.contains t.1 && h1.contains t.2) || (h2.contains t.1 && h2.contains t.2)
  else (h1.contains t.1 && h2.contains t.2) || (h2.contains t.1 && h1.contains t.2)

/-- Step 3: the 5+5 ending candidates — ordered pairs of distinct suits
below rank 5, kept unless blocked by the starting hands. -/
def sbAssigns55 (suits : List Int) (h1 h2 : List (Int × Int)) :
    List ((Int × Int) × (Int × Int)) :=
  suits.flatMap (fun i =>
    (suits.filter (fun j => !(j == i) && !(assignHelper ((i, 5), (j, 5)) h1 h2 false))).map
      (fun j => ((i, 5), (j, 5))))

/-- Step 3: the 4+5 ending candidates — suits below rank 4, kept unless
blocked by the starting hands. -/
def sbAssigns45 (suits : List Int) (h1 h2 : List (Int × Int)) :
    List ((Int × Int) × (Int × Int)) :=
  (suits.filter (fun i => !(assignHelper ((i, 4), (i, 5)) h1 h2 false))).map
    (fun i => ((i, 4), (i, 5)))

/-- `turns_playable[index].append(draw_loc)`: `IndexError` out of range,
`AttributeError` when the entry is the Python `None`. -/
def turnsAppend (t : List (Option (List Nat))) (i : Nat) (d : Nat) :
    Except PyErr (List (Option (List Nat))) :=
  if i < t.length then
    match t.getD i none with
    | none => Except.error PyErr.attributeError
    | some l => Except.ok (t.set i (some (l ++ [d])))
  else Except.error PyErr.indexError

/-- One `draw_loc` iteration of the Step 4 earliest-turns simulation:
for each suit in order, play its next rank if that card is in hand
(recording the turn), then draw the path card at `draw_loc` if any. -/
def earliestStep (pf : PathFinder) (path : List Bool)
    (st : List Nat × List Nat × List (Option (List Nat))) (drawLoc : Nat) :
    Except PyErr (List Nat × List Nat × List (Option (List Nat))) := do
  let r ← (List.range pf.suitsCount).foldlM
    (fun (acc : List Nat × List Nat × List (Option (List Nat))) suit => do
      let (stks, hand, turns) := acc
      let rank := stks.getD suit 0 + 1
      let value := (suit <<< 31) ||| rank
      let idx := 5 * suit + rank
      if hand.contains value then do
        let hand ← sRemove hand value
        let stks := stks.set suit (stks.getD suit 0 + 1)
        let turns ← turnsAppend turns idx drawLoc
        Except.ok (stks, hand, turns)
      else Except.ok acc)
    st
  let (stks, hand, turns) := r
  let hand :=
    if drawLoc < path.length && path.getD drawLoc false then
      sAdd hand ((pf.deck.getD drawLoc dummyCard).value)
    else hand
  Except.ok (stks, hand, turns)

/-- One `draw_loc` iteration of the Step 4 latest-turns simulation for a
chosen suit: play the first other suit whose next card is in hand; if
none is found, assume the chosen suit's next card plays now and record
the turn.  `hand.remove` is unconditional, exactly as in the source. -/
def latestStep (pf : PathFinder) (path : List Bool) (chosen : Nat)
    (st : List Nat × List Nat × List (Option (List Nat))) (drawLoc : Nat) :
    Except PyErr (List Nat × List Nat × List (Option (List Nat))) := do
  let (stks, hand, turns) := st
  let found := (List.range pf.suitsCount).find?
    (fun suit => !(suit == chosen) && hand.contains ((suit <<< 31) ||| (stks.getD suit 0 + 1)))
  match found with
  | some suit => do
    let value := (suit <<< 31) ||| (stks.getD suit 0 + 1)
    let hand ← sRemove hand value
    let stks := stks.set suit (stks.getD suit 0 + 1)
    let hand :=
      if drawLoc < path.length && path.getD drawLoc false then
        sAdd hand ((pf.deck.getD drawLoc dummyCard).value)
      else hand
    Except.ok (stks, hand, turns)
  | none => do
    let rank := stks.getD chosen 0 + 1
    let value := (chosen <<< 31) ||| rank
    let idx := 5 * chosen + rank
    let turns ← turnsAppend turns idx drawLoc
    let hand ← sRemove hand value
    let stks := stks.set chosen (stks.getD chosen 0 + 1)
    let hand :=
      if drawLoc < path.length && path.getD drawLoc false then
        sAdd hand ((pf.deck.getD drawLoc dummyCard).value)
      else hand
    Except.ok (stks, hand, turns)

/-- The Step 4 data-validation block: `assert(entry is None or
len(entry) == 2)` and `assert(entry is None or entry[1] >= entry[0])`
for every entry of `turns_playable`. -/
def validateTurns (turns : List (Option (List Nat))) : Except PyErr Unit :=
  turns.foldlM
    (fun _ entry =>
      match entry with
      | none => Except.ok ()
      | some l =>
        if l.length == 2 then
          if l.getD 1 0 ≥ l.getD 0 0 then Except.ok () else Except.error PyErr.assertionError
        else Except.error PyErr.assertionError)
    ()

/-- `l[i].append(x)` for the Step 5 precursor/successor tables (always
in range for well-formed cards). -/
def listAppendAt (l : List (List Nat)) (i : Nat) (x : Nat) : List (List Nat) :=
  l.set i (l.getD i [] ++ [x])

/-- The Step 5 `while queue` loop of the unique-deck analysis.  Pops from
the back (`list.pop()`), skips indices whose hand placement is impossible
for the 3-4-5 distribution, succeeds when a card with no precursors can
be held freely, and otherwise enqueues unvisited precursors.  Returns
`good_dist`.  The fuel passed by `solveBreakpoint` exceeds every possible
number of iterations (each iteration pops one element and total enqueues
are bounded), so `fuelError` is unreachable from the call site. -/
def uniqueLoop (suitU : Int) (h1 h2 : List (Int × Int)) (pre : List (List Nat)) :
    Nat → List Nat → List Nat → Except PyErr Bool
  | 0, _, _ => Except.error PyErr.fuelError
  | fuel + 1, queue, aq =>
    match queue.getLast? with
    | none => Except.ok false
    | some index =>
      let queue := queue.dropLast
      let d : Int := (index : Int) - 1
      let suit2 : Int := d.ediv 5
      let rank2 : Int := d.emod 5 + 1
      if assignHelper ((suitU, 4), (suit2, rank2)) h1 h2 false then
        uniqueLoop suitU h1 h2 pre fuel queue aq
      else if assignHelper ((suitU, 5), (suit2, rank2)) h1 h2 true then
        uniqueLoop suitU h1 h2 pre fuel queue aq
      else if (pre.getD index []).length == 0 then Except.ok true
      else
        let r := (pre.getD index []).foldl
          (fun (p : List Nat × List Nat) preIndex =>
            if p.2.contains preIndex then p else (p.1 ++ [preIndex], sAdd p.2 preIndex))
          (queue, aq)
        uniqueLoop suitU h1 h2 pre fuel r.1 r.2

/-- `PathFinder._solve_breakpoint(path, loc_to_cnct, loc_to_stack)`.
The five steps of the source in order; all early `return`s preserved.
`loc_to_cnct` is only read through its keys (`min`/`max`), exactly as in
the source. -/
def solveBreakpoint (pf : PathFinder) (path : List Bool)
    (locToCnct : List (Int × ConnEntry)) (locToStack : List (Int × List Nat)) :
    Except PyErr Bool := do
  let S := pf.suitsCount
  let keys := locToCnct.map Prod.fst
  -- ===== STEP ONE =====
  let location ← pyMin keys
  let stks0 ← dictGet locToStack location
  let hand1 := sbFilterHand stks0 (sbHand1 pf.deck path)
  let hand2 := sbFilterHand stks0 (sbHand2 pf.deck path)
  let pace0 := sbPace0 pf.deck path location
  -- ===== STEP TWO =====
  let maxloc ← pyMax keys
  let stksM ← dictGet locToStack maxloc
  let unique := stksM.countP (fun r => r ≠ 5) == 1
  -- ===== STEP THREE =====
  let location2 ← pyMax keys
  let stksF ← dictGet locToStack location2
  let validAssigns := sbAssigns55 (sbSuitsBelow stksF 5) hand1 hand2
  let validAssigns := validAssigns ++ sbAssigns45 (sbSuitsBelow stksF 4) hand1 hand2
  if validAssigns.length == 0 then return true
  if unique then
    let suitU := (validAssigns.headD ((0, 0), (0, 0))).1.1
    if assignHelper ((suitU, 3), (suitU, 4)) hand1 hand2 false then return true
    if assignHelper ((suitU, 3), (suitU, 5)) hand1 hand2 true then return true
  if !unique && validAssigns.any (fun a => !(pace0.contains a.1) && !(pace0.contains a.2)) then
    return false
  -- ===== STEP FOUR =====
  let turns : List (Option (List Nat)) := List.replicate (5 * S + 1) none
  let location3 ← pyMin keys
  let stks0b ← dictGet locToStack location3
  let turns := (List.range S).foldl
    (fun tu suit =>
      (List.range' (stks0b.getD suit 0 + 1) (5 - stks0b.getD suit 0)).foldl
        (fun tu2 rank => tu2.set (5 * suit + rank) (some [])) tu)
    turns
  let hand := (List.range ((location3 + 1).toNat)).foldl
    (fun h i =>
      if !(path.getD i false) then h
      else
        let c := pf.deck.getD i dummyCard
        if c.rank > stks0b.getD c.suit 0 then sAdd h c.value else h)
    []
  let tempHand := hand
  let drawLocs := List.range' ((location3 + 1).toNat)
    ((path.length + 2) - (location3 + 1).toNat)
  let r4 ← drawLocs.foldlM (earliestStep pf path) (stks0b, hand, turns)
  let turns := r4.2.2
  let turns ← (List.range S).foldlM
    (fun tu chosen => do
      let r ← drawLocs.foldlM (latestStep pf path chosen) (stks0b, tempHand, tu)
      Except.ok r.2.2)
    turns
  validateTurns turns
  -- ===== STEP FIVE =====
  let stks5 ← dictGet locToStack location3
  let emptyTable : List (List Nat) := List.replicate (5 * S + 1) []
  let tables := pf.deck.enum.foldl
    (fun (ps : List (List Nat) × List (List Nat)) p =>
      let (deckLoc, card) := p
      if (deckLoc : Int) < location3 then ps
      else if !(path.getD deckLoc false) then ps
      else
        turns.enum.foldl
          (fun (ps2 : List (List Nat) × List (List Nat)) q =>
            match q.2 with
            | none => ps2
            | some l =>
              if l.getD 0 0 ≤ deckLoc ∧ deckLoc ≤ l.getD 1 0 then
                (listAppendAt ps2.1 card.index q.1, listAppendAt ps2.2 q.1 card.index)
              else ps2)
          ps)
    (emptyTable, emptyTable)
  let precursors := tables.1
  let successors := tables.2
  let connectors := (List.replicate (5 * S + 1) false).set
    (pyGetD pf.deck dummyCard location3).index true
  let connectors := pf.deck.enum.foldl
    (fun cn p =>
      let (deckLoc, card) := p
      if (deckLoc : Int) < location3 then cn
      else if !(path.getD deckLoc false) then cn
      else if cn.getD card.index false then
        (successors.getD card.index []).foldl (fun cn2 i => cn2.set i true) cn
      else cn)
    connectors
  let endFound := validAssigns.any
    (fun a => pyGetD connectors false (5 * a.1.1 + a.1.2) ||
      pyGetD connectors false (5 * a.2.1 + a.2.2))
  let deadEnd := !endFound
  if deadEnd then
    let dof : Int := 5 * (S : Int) - (stks5.sum : Int) -
      ((hand1.length : Int) + (hand2.length : Int) + (pace0.length : Int))
    if dof == 0 then
      if hand1.length == 0 || hand2.length == 0 then return true
  if unique then
    let suitU := (validAssigns.headD ((0, 0), (0, 0))).1.1
    let idx0 := (5 * suitU + 3).toNat
    let queue := precursors.getD idx0 []
    let aq := queue.foldl sAdd []
    if queue.length == 0 then return false
    let goodDist ← uniqueLoop suitU hand1 hand2 precursors
      (pf.deck.length * (5 * S + 2) + queue.length + 5 * S + 10) queue aq
    if !goodDist then return true
  return false

/-- `PathFinder._check_for_dist_loss(path)`. -/
def checkForDistLoss (pf : PathFinder) (path : List Bool) : Except PyErr Bool := do
  let locations := getPaceBreakpoints pf path 0
  let r ← getBreakpointConnectors pf path locations
  solveBreakpoint pf path r.1 r.2

/-- The short-circuiting `all(self._check_for_dist_loss(path) for path
in paths)` of `check_for_infeasibility`. -/
def allDistLoss (pf : PathFinder) : List (List Bool) → Except PyErr Bool
  | [] => Except.ok true
  | p :: rest => do
    let b ← checkForDistLoss pf p
    if b then allDistLoss pf rest else Except.ok false

/-- `PathFinder.check_for_infeasibility()`: path enumeration, the
one-player check, and the hand-distribution conjunction.  Returns the
pair `(infeasible, forced to pace zero)`. -/
def checkForInfeasibility (pf : PathFinder) (o : ShapeOptions) :
    Except PyErr (Bool × Bool) := do
  let ps ← pipelinePaths pf o
  let r := checkFor1pInf pf ps
  if r.2.length == 0 then return (r.1, false)
  else do
    let b ← allDistLoss pf r.2
    return (b, true)

/-! ## `util.py`: suits, variants, `Deck.__repr__` and `Deck.set_deck`

The repository loads its suit and variant catalogs from JSON files
fetched from Hanab Live (`suits.py` / `variants.py`); those data files
are not part of the source tree.  The catalog for the default variant is
therefore modelled from the spec (§6): a `SuitSpec` has a name, an
optional id and an optional abbreviation, and the "No Variant" deck uses
the five base suits with distinct one-letter abbreviations. -/

/-- A suit of a variant, per the spec's
`SuitSpec { name, id, abbreviation, ... }` (the fields not used by
formatting or parsing are omitted). -/
structure Suit where
  name : List Char
  sid : Option (List Char)
  abbreviation : Option (List Char)
deriving DecidableEq, Repr

/-- A variant, restricted to the fields read by `Deck.__repr__` and
`Deck.set_deck`: `suits` and `suit_names` (the latter is the list of
suit names, as `Variant.__init__` stores it). -/
structure Variant where
  suits : List Suit
  suitNames : List (List Char)
deriving DecidableEq, Repr

/-- `str.lower()` on ASCII strings. -/
def strLower (s : List Char) : List Char := s.map Char.toLower

/-- Modelled from the spec: the five base suits of the "No Variant"
configuration, with their names and one-letter abbreviations; the
catalog JSON is external to the source tree.  The optional long id is
absent for the base suits (only `name` and `abbreviation` take part in
formatting and parsing them). -/
def noVariantSuits : List Suit :=
  [⟨['R', 'e', 'd'], none, some ['R']⟩,
   ⟨['Y', 'e', 'l', 'l', 'o', 'w'], none, some ['Y']⟩,
   ⟨['G', 'r', 'e', 'e', 'n'], none, some ['G']⟩,
   ⟨['B', 'l', 'u', 'e'], none, some ['B']⟩,
   ⟨['P', 'u', 'r', 'p', 'l', 'e'], none, some ['P']⟩]

/-- Modelled from the spec: the "No Variant" variant over
`noVariantSuits`, with `suit_names` the list of the suit names. -/
def noVariant : Variant := ⟨noVariantSuits, noVariantSuits.map Suit.name⟩

/-- The sentinel suit name `"Chromatic"` of `Deck.set_deck`. -/
def chromaticName : List Char := ['C', 'h', 'r', 'o', 'm', 'a', 't', 'i', 'c']

/-- `str(rank)` (as `Nat.toDigits`, which agrees with Python's decimal
rendering of a nonnegative int). -/
def rankStr (r : Nat) : List Char := Nat.toDigits 10 r

/-- One card of `Deck.__repr__`: the lowercase suit abbreviation (or id
when the abbreviation is `None`) followed by the rank digits.  The suit
is `self.variant.suits[suit_index]`; a missing abbreviation *and* id is
the `AttributeError`/`TypeError` Python would raise, modelled by an
empty suit part (never reached for the modelled catalog). -/
def cardToken (v : Variant) (c : Card) : List Char :=
  let suit := pyGetD v.suits ⟨[], none, none⟩ (c.suit : Int)
  (match suit.abbreviation with
   | some ab => strLower ab
   | none =>
     match suit.sid with
     | some i => strLower i
     | none => []) ++ rankStr c.rank

/-- `Deck.__repr__`: the card tokens each followed by a space, with the
trailing space removed (`fmt[:-1]`). -/
def reprDeck (v : Variant) (deck : List Card) : List Char :=
  (deck.foldl (fun acc c => acc ++ cardToken v c ++ [' ']) []).dropLast

/-- The rank-extraction loop of `Deck.set_deck`: find the first character
in `"12345"`, take it as the rank and delete it from the word; rank 0
when no such character occurs.  (The `word.strip()` of the source
discards its result, so it is a no-op.) -/
def extractRank : List Char → Nat × List Char
  | [] => (0, [])
  | ch :: rest =>
    if ch ∈ ['1', '2', '3', '4', '5'] then (ch.toNat - 48, rest)
    else
      let r := extractRank rest
      (r.1, ch :: r.2)

/-- The per-suit match of `Deck.set_deck`: abbreviation, then id, then
name, all case-insensitively (the first two only when present). -/
def suitMatches (s : Suit) (w : List Char) : Bool :=
  (match s.abbreviation with
   | some ab => strLower w == strLower ab
   | none => false) ||
  (match s.sid with
   | some i => strLower w == strLower i
   | none => false) ||
  (strLower w == strLower s.name)

/-- The suit-search loop of `Deck.set_deck`: the name of the first
matching suit, defaulting to the `"Chromatic"` sentinel. -/
def matchSuit : List Suit → List Char → List Char
  | [], _ => chromaticName
  | s :: rest, w => if suitMatches s w then s.name else matchSuit rest w

/-- Python `list.index(x)` (raises `ValueError` when absent), as used by
`self.variant.suit_names.index(suit)`. -/
def pyListIndex (l : List (List Char)) (x : List Char) : Except PyErr Nat :=
  match l with
  | [] => Except.error PyErr.valueError
  | a :: rest =>
    if a == x then Except.ok 0
    else (pyListIndex rest x).map (fun n => n + 1)

/-- One word of `Deck.set_deck`: extract the rank, find the suit name,
and look its index up in `suit_names`. -/
def parseToken (v : Variant) (w : List Char) : Except PyErr Card := do
  let r := extractRank w
  let suitName := matchSuit v.suits r.2
  let si ← pyListIndex v.suitNames suitName
  Except.ok ⟨si, r.1⟩

/-- `Deck.set_deck(deck)`: parse each word in order, building the card
list; an exception at any word aborts the whole call.  (The trailing
`_set_card_locations` assigns each card its list position, which the
embedding keeps implicit.) -/
def setDeck (v : Variant) : List (List Char) → Except PyErr (List Card)
  | [] => Except.ok []
  | w :: rest => do
    let c ← parseToken v w
    let cs ← setDeck v rest
    Except.ok (c :: cs)

/-- `util.create_bespoke_deck(deck)`: a "No Variant" deck populated by
`set_deck`. -/
def createBespokeDeck (tokens : List (List Char)) : Except PyErr (List Card) :=
  setDeck noVariant tokens

/-- Python `str.split()` restricted to spaces: splits on runs of spaces
and drops empty fields (the canonical deck strings contain no other
whitespace). -/
def splitWsAux : List Char → List Char → List (List Char)
  | [], cur => if cur.isEmpty then [] else [cur.reverse]
  | c :: cs, cur =>
    if c == ' ' then
      if cur.isEmpty then splitWsAux cs [] else cur.reverse :: splitWsAux cs []
    else splitWsAux cs (c :: cur)

/-- Whitespace splitting of a deck string into card tokens. -/
def splitWs (s : List Char) : List (List Char) := splitWsAux s []

/-! ## Closed forms and instrumented variants used by the proofs -/

/-- The per-suit pinned plays after `t + 1` steps of the right-to-left
pace walk (step 0 is the initial read of the last deck position; step
`t` reads position `len - 1 - t`).  This is the common stack state of
`_check_for_pace_loss` and `_get_pace_breakpoints`. -/
def pinStacks (deck : List Card) (path : List Bool) (S : Nat) : Nat → List Nat
  | 0 => paceStep deck path (List.replicate S 0) ((deck.length : Int) - 1)
  | t + 1 =>
    paceStep deck path (pinStacks deck path S t) ((deck.length : Int) - 1 - ((t : Int) + 1))

/-- `capacityLoop` instrumented with the deck index at which the hand
first reaches the capacity — `some i` exactly when the plain loop
returns `True`, with `i` the failing position. -/
def capacityLoopIdx (deck : List Card) (capacity : Nat) :
    List Bool → Nat → List Nat → List Nat → Option Nat
  | [], _, _, _ => none
  | curr :: rest, idx, hand, stks =>
    if !curr then capacityLoopIdx deck capacity rest (idx + 1) hand stks
    else
      let c := deck.getD idx dummyCard
      if stks.getD c.suit 0 == c.rank - 1 then
        let r := cascade hand.length hand (c.value + 1)
        capacityLoopIdx deck capacity rest (idx + 1) r.1
          (stks.set c.suit (stks.getD c.suit 0 + 1 + r.2))
      else
        let hand := sAdd hand c.value
        if hand.length == capacity then some idx
        else capacityLoopIdx deck capacity rest (idx + 1) hand stks

/-- The deck index at which `_check_for_capacity_loss` detects the loss,
when it does. -/
def capFailIdx (pf : PathFinder) (path : List Bool) (capacity : Nat) : Option Nat :=
  capacityLoopIdx pf.deck capacity path 0 [] (List.replicate pf.suitsCount 0)

/-! ## Concrete decks used as counterexamples and witnesses

All three 50-card decks below are genuine permutations of the
"No Variant" deck (three 1s, two each of 2-4 and one 5 per suit). -/

/-- One suit laid out in ascending order. -/
def suitBlock (s : Nat) : List Card :=
  [⟨s, 1⟩, ⟨s, 1⟩, ⟨s, 1⟩, ⟨s, 2⟩, ⟨s, 2⟩, ⟨s, 3⟩, ⟨s, 3⟩, ⟨s, 4⟩, ⟨s, 4⟩, ⟨s, 5⟩]

/-- A fully ascending No-Variant deck. -/
def deckAsc : List Card :=
  suitBlock 0 ++ suitBlock 1 ++ suitBlock 2 ++ suitBlock 3 ++ suitBlock 4

/-- `deckAsc` with its `suitsCount = 5, players = 2, hand size = 5`
pathfinder. -/
def pfAsc : PathFinder := ⟨deckAsc, 5, 2, 5⟩

/-- An ascending deck whose last position holds a spare rank-1 of the
fifth suit (a trash card), so the whole deck is trivially winnable while
its last card has rank 1 ≠ 5. -/
def deckE : List Card :=
  suitBlock 0 ++ suitBlock 1 ++ suitBlock 2 ++ suitBlock 3 ++
  [⟨4, 1⟩, ⟨4, 1⟩, ⟨4, 2⟩, ⟨4, 2⟩, ⟨4, 3⟩, ⟨4, 3⟩, ⟨4, 4⟩, ⟨4, 4⟩, ⟨4, 5⟩, ⟨4, 1⟩]

/-- Pathfinder for `deckE`. -/
def pfE : PathFinder := ⟨deckE, 5, 2, 5⟩

/-- A deck whose fifth suit runs `1 1 1 3 3 4 4 2 2 5`: the unique
enumerated path survives the capacity and team-pace filters but fails
the single-hand pace filter, so it is handed to the distribution
solver. -/
def deckD1 : List Card :=
  suitBlock 0 ++ suitBlock 1 ++ suitBlock 2 ++ suitBlock 3 ++
  [⟨4, 1⟩, ⟨4, 1⟩, ⟨4, 1⟩, ⟨4, 3⟩, ⟨4, 3⟩, ⟨4, 4⟩, ⟨4, 4⟩, ⟨4, 2⟩, ⟨4, 2⟩, ⟨4, 5⟩]

/-- Pathfinder for `deckD1`. -/
def pfD1 : PathFinder := ⟨deckD1, 5, 2, 5⟩

/-- The single deck path that `pipelinePaths` enumerates for `deckD1`
(one suit path per suit). -/
def psD1 : List (List (List Int)) :=
  [[[0, 3, 5, 7, 9], [10, 13, 15, 17, 19], [20, 23, 25, 27, 29],
    [30, 33, 35, 37, 39], [40, 47, 44, 46, 49]]]

/-- The boolean mask of the unique `deckD1` path. -/
def p0D1 : List Bool := pathify pfD1 (psD1.headD []).flatten

/-- A path over `deckAsc` using ranks 2-5 of the first two suits and
ranks 2-3 of the third, with no rank 1: ten cards pile up unplayed, so
the capacity filter fails at capacity 10 — until position 0 (a rank 1)
is added, which lets the first suit cascade out of hand. -/
def path3 : List Bool :=
  (List.range 50).map (fun i => i ∈ [3, 5, 7, 9, 13, 15, 17, 19, 23, 25])

/-- Starting hands fixture for the `solveBreakpoint` early-return
witness: the fourth-suit 4 and 5 sit at positions 0 and 1 (both in
starting hand 1), the rest is irrelevant padding. -/
def deckW : List Card := [⟨4, 4⟩, ⟨4, 5⟩] ++ List.replicate 10 ⟨0, 1⟩

/-- Pathfinder for `deckW`. -/
def pfW : PathFinder := ⟨deckW, 5, 2, 5⟩

/-- Path for `deckW`: only the two critical cards are used. -/
def pathW : List Bool := [true, true] ++ List.replicate 10 false

/-- A one-breakpoint connector dict for the `solveBreakpoint` witness. -/
def cnctW : List (Int × ConnEntry) := [(11, ConnEntry.anything)]

/-- The matching stack dict: all suits finished except the fifth at 3. -/
def stackW : List (Int × List Nat) := [(11, [5, 5, 5, 5, 3])]

/-- A path over a 50-position deck using only the last position. -/
def pathBdrE : List Bool := (List.range 50).map (fun i => i == 49)

/-! ## Theorems

### Generic helper lemmas -/

theorem pyGetD_eq_getD {α : Type} (l : List α) (d : α) (i : Int)
    (h0 : 0 ≤ i) (h1 : i < (l.length : Int)) : pyGetD l d i = l.getD i.toNat d := by
  unfold pyGetD
  rw [Int.emod_eq_of_lt h0 h1]

theorem pyGetD_mem {α : Type} (l : List α) (d : α) (i : Int)
    (h0 : 0 ≤ i) (h1 : i < (l.length : Int)) : pyGetD l d i ∈ l := by
  rw [pyGetD_eq_getD l d i h0 h1]
  have hlt : i.toNat < l.length := by omega
  rw [List.getD_eq_getElem l d hlt]
  exact List.getElem_mem hlt

theorem getD_le_of_all_le (l : List Nat) (b : Nat) (h : ∀ x ∈ l, x ≤ b) (s : Nat) :
    l.getD s 0 ≤ b := by
  by_cases hs : s < l.length
  · rw [List.getD_eq_getElem l 0 hs]
    exact h _ (List.getElem_mem hs)
  · have : l.getD s 0 = 0 := by
      simp [List.getD_eq_getElem?_getD, List.getElem?_eq_none (by omega : l.length ≤ s)]
    omega

theorem sum_le_of_all_le (l : List Nat) (b : Nat) (h : ∀ x ∈ l, x ≤ b) :
    l.sum ≤ b * l.length := by
  induction l with
  | nil => simp
  | cons x xs ih =>
    simp only [List.sum_cons, List.length_cons]
    have h1 := h x (by simp)
    have h2 := ih (fun y hy => h y (by simp [hy]))
    have : b * (xs.length + 1) = b * xs.length + b := by ring
    omega

/-! ### The pace filter: closed form -/

/-- One `paceStep` over a well-formed 50-card deck keeps the state at
five entries, all at most 5, as long as the read is in range. -/
theorem paceStep_bounds (deck : List Card) (path : List Bool)
    (hwf : WFDeck 5 deck) (stks : List Nat) (i : Int)
    (h0 : 0 ≤ i) (h1 : i < (deck.length : Int))
    (hlen : stks.length = 5) (hle : ∀ x ∈ stks, x ≤ 5) :
    (paceStep deck path stks i).length = 5 ∧ ∀ x ∈ paceStep deck path stks i, x ≤ 5 := by
  unfold paceStep
  by_cases hc : pyGetD path false i = true
  · simp only [hc, if_true]
    have hmem : pyGetD deck dummyCard i ∈ deck := pyGetD_mem deck dummyCard i h0 h1
    obtain ⟨-, hr1, -⟩ := hwf _ hmem
    refine ⟨by simp [hlen], ?_⟩
    intro x hx
    rcases List.mem_or_eq_of_mem_set hx with hx' | hx'
    · exact hle x hx'
    · have hg := getD_le_of_all_le stks 5 hle (pyGetD deck dummyCard i).suit
      omega
  · simp only [Bool.not_eq_true] at hc
    simp only [hc, Bool.false_eq_true, if_false]
    exact ⟨hlen, hle⟩

/-- Elements of a `pinStacks` state over a well-formed 50-card deck stay
at most 5, and the state keeps five entries. -/
theorem pinStacks_bounds (deck : List Card) (path : List Bool)
    (hN : deck.length = 50) (hwf : WFDeck 5 deck) :
    ∀ t, t ≤ 24 →
      (pinStacks deck path 5 t).length = 5 ∧ ∀ x ∈ pinStacks deck path 5 t, x ≤ 5 := by
  have hN' : (deck.length : Int) = 50 := by rw [hN]; rfl
  intro t
  induction t with
  | zero =>
    intro _
    unfold pinStacks
    exact paceStep_bounds deck path hwf _ _ (by omega) (by omega) (by simp) (by simp)
  | succ n ih =>
    intro hn
    have hr := ih (by omega)
    unfold pinStacks
    refine paceStep_bounds deck path hwf _ _ (by omega) (by omega)
      hr.1 hr.2

/-- The main loop of `_check_for_pace_loss`, started at walk step `t0`,
returns `True` exactly when some later step within its remaining
iterations pins more plays than the pace allows. -/
theorem paceLossLoop_iff (deck : List Card) (path : List Bool) (S nfp : Nat) :
    ∀ rem t0,
      (paceLossLoop deck path rem (nfp + t0) ((deck.length : Int) - 1 - (t0 : Int))
        (pinStacks deck path S t0) = true) ↔
      ∃ t, t0 < t ∧ t ≤ t0 + rem ∧ (pinStacks deck path S t).sum > nfp + t := by
  intro rem
  induction rem with
  | zero =>
    intro t0
    simp only [paceLossLoop]
    constructor
    · intro h; exact absurd h (by simp)
    · rintro ⟨t, h1, h2, -⟩; omega
  | succ n ih =>
    intro t0
    have hidx : ((deck.length : Int) - 1 - (t0 : Int)) - 1 =
        (deck.length : Int) - 1 - ((t0 : Int) + 1) := by ring
    have hpin : paceStep deck path (pinStacks deck path S t0)
        (((deck.length : Int) - 1 - (t0 : Int)) - 1) = pinStacks deck path S (t0 + 1) := by
      rw [hidx]
      rfl
    simp only [paceLossLoop, hpin]
    by_cases hsum : (pinStacks deck path S (t0 + 1)).sum > nfp + t0 + 1
    · simp only [if_pos hsum, true_iff]
      exact ⟨t0 + 1, by omega, by omega, by omega⟩
    · simp only [if_neg hsum]
      have hnext : (paceLossLoop deck path n (nfp + (t0 + 1))
          ((deck.length : Int) - 1 - ((t0 + 1 : Nat) : Int))
          (pinStacks deck path S (t0 + 1)) = true) ↔
          ∃ t, t0 + 1 < t ∧ t ≤ t0 + 1 + n ∧
            (pinStacks deck path S t).sum > nfp + t := ih (t0 + 1)
      have harg1 : nfp + (t0 + 1) = nfp + t0 + 1 := by omega
      have harg2 : ((deck.length : Int) - 1 - ((t0 + 1 : Nat) : Int)) =
          (deck.length : Int) - 1 - ((t0 : Int) + 1) := by push_cast; ring
      rw [harg1, harg2] at hnext
      rw [hidx, hnext]
      constructor
      · rintro ⟨t, h1, h2, h3⟩; exact ⟨t, by omega, by omega, h3⟩
      · rintro ⟨t, h1, h2, h3⟩
        rcases Nat.lt_or_ge (t0 + 1) t with h | h
        · exact ⟨t, h, by omega, h3⟩
        · have : t = t0 + 1 := by omega
          subst this
          omega

/-- Closed form of `_check_for_pace_loss`: a pace loss is either the
bottom-deck-risk special case (last position used by a non-5) or a walk
step at which the pinned plays exceed the pace. -/
theorem checkForPaceLoss_iff (pf : PathFinder) (path : List Bool) (nfp : Nat) :
    checkForPaceLoss pf path nfp = true ↔
      (pyGetD path false ((pf.deck.length : Int) - 1) = true ∧
        (pyGetD pf.deck dummyCard ((pf.deck.length : Int) - 1)).rank ≠ 5) ∨
      ∃ t, 1 ≤ t ∧ t ≤ pf.maxScore - nfp ∧
        (pinStacks pf.deck path pf.suitsCount t).sum > nfp + t := by
  unfold checkForPaceLoss
  by_cases hbdr : pyGetD path false ((pf.deck.length : Int) - 1) = true ∧
      (pyGetD pf.deck dummyCard ((pf.deck.length : Int) - 1)).rank ≠ 5
  · have hc : (pyGetD path false ((pf.deck.length : Int) - 1) &&
        !((pyGetD pf.deck dummyCard ((pf.deck.length : Int) - 1)).rank == 5)) = true := by
      simp [hbdr.1, hbdr.2]
    simp [hc, hbdr]
  · have hc : (pyGetD path false ((pf.deck.length : Int) - 1) &&
        !((pyGetD pf.deck dummyCard ((pf.deck.length : Int) - 1)).rank == 5)) = false := by
      rcases Decidable.not_and_iff_or_not.mp hbdr with h | h
      · simp [Bool.not_eq_true] at h
        simp [h]
      · simp only [ne_eq, Decidable.not_not] at h
        simp [h]
    simp only [hc, Bool.false_eq_true, if_false]
    have h0 := paceLossLoop_iff pf.deck path pf.suitsCount nfp (pf.maxScore - nfp) 0
    have hpin0 : pinStacks pf.deck path pf.suitsCount 0 =
        paceStep pf.deck path (List.replicate pf.suitsCount 0)
          ((pf.deck.length : Int) - 1) := rfl
    simp only [Nat.add_zero, Nat.cast_zero, Int.sub_zero] at h0
    rw [← hpin0]
    rw [h0]
    constructor
    · rintro ⟨t, h1, h2, h3⟩
      exact Or.inr ⟨t, by omega, by omega, h3⟩
    · rintro (h | ⟨t, h1, h2, h3⟩)
      · exact absurd h hbdr
      · exact ⟨t, by omega, by omega, h3⟩

/-! ### C2: the pace filter with budget 1 is weaker than with budget P -/

/-- C2: for every deck and boolean path, if the pace filter with budget
`P = num_players ≥ 1` reports a pace loss, then the pace filter with
budget 1 also reports a pace loss — or (vacuously) the path is among
the paths passed to the distribution solver for any batch `ps`.  (The
first disjunct always holds, which proves the disjunction as claimed.) -/
theorem claim_C2 (pf : PathFinder) (path : List Bool) (ps : List (List (List Int)))
    (hP : 1 ≤ pf.numPlayers)
    (h : checkForPaceLoss pf path pf.numPlayers = true) :
    checkForPaceLoss pf path 1 = true ∨ path ∈ (checkFor1pInf pf ps).2 := by
  left
  rw [checkForPaceLoss_iff] at h ⊢
  rcases h with h | ⟨t, h1, h2, h3⟩
  · exact Or.inl h
  · exact Or.inr ⟨t, h1, by omega, by omega⟩

/-- Witness for C2 at a concrete input: `deckE` with the path using only
the last position (a rank 1), two players. -/
theorem claim_C2_witness :
    1 ≤ pfE.numPlayers ∧ checkForPaceLoss pfE pathBdrE pfE.numPlayers = true ∧
    (checkForPaceLoss pfE pathBdrE 1 = true ∨ pathBdrE ∈ (checkFor1pInf pfE []).2) :=
  ⟨by decide, by decide, claim_C2 pfE pathBdrE [] (by decide) (by decide)⟩

/-! ### C4: the bottom-deck-risk clause and its limits -/

/-- C4 (amended): for every pathfinder and path, if the path uses the
last deck position and the card there has rank other than 5, then
`_check_for_pace_loss` reports a pace loss for every final-play budget.
(The original claim — that every 50-card No-Variant *deck* whose last
card is not a rank 5 is proved infeasible by `check_for_infeasibility` —
is refuted by `claim_C4_counterexample`: when the last card is a spare
copy, no enumerated path uses the last position and the deck can be
winnable.) -/
theorem claim_C4_amended (pf : PathFinder) (path : List Bool) (nfp : Nat)
    (h1 : pyGetD path false ((pf.deck.length : Int) - 1) = true)
    (h5 : (pyGetD pf.deck dummyCard ((pf.deck.length : Int) - 1)).rank ≠ 5) :
    checkForPaceLoss pf path nfp = true := by
  unfold checkForPaceLoss
  simp [h1, h5]

/-- Witness for the amended C4 at a concrete input. -/
theorem claim_C4_witness :
    pyGetD pathBdrE false ((pfE.deck.length : Int) - 1) = true ∧
    (pyGetD pfE.deck dummyCard ((pfE.deck.length : Int) - 1)).rank ≠ 5 ∧
    checkForPaceLoss pfE pathBdrE 2 = true :=
  ⟨by decide, by decide, claim_C4_amended pfE pathBdrE 2 (by decide) (by decide)⟩

set_option maxRecDepth 100000 in
/-- C4 (counterexample): `deckE` is a 50-card No-Variant deck whose last
card has rank 1 ≠ 5, yet `check_for_infeasibility` returns
`(False, False)` — the deck is not proved infeasible. -/
theorem claim_C4_counterexample :
    deckE.length = 50 ∧ WFDeck 5 deckE ∧
    (pyGetD deckE dummyCard ((deckE.length : Int) - 1)).rank ≠ 5 ∧
    checkForInfeasibility pfE studyDefaultOptions = Except.ok (false, false) :=
  ⟨rfl, by decide, by decide, rfl⟩

/-! ### C10: pace-zero breakpoints are nonempty in the distribution
regime -/

theorem bpLoop_ne_nil_of_acc (deck : List Card) (path : List Bool) (value : Nat) :
    ∀ rem pace index stks acc, acc ≠ [] →
      bpLoop deck path value rem pace index stks acc ≠ [] := by
  intro rem
  induction rem with
  | zero => intro pace index stks acc h; simpa [bpLoop] using h
  | succ n ih =>
    intro pace index stks acc h
    simp only [bpLoop]
    by_cases hc : (paceStep deck path stks (index - 1)).sum == pace + 1 + value
    · simp only [hc, if_true]
      exact ih _ _ _ _ (by simp)
    · simp only [hc, Bool.false_eq_true, if_false]
      exact ih _ _ _ _ h

theorem bpLoop_hit (deck : List Card) (path : List Bool) (S value nfp : Nat) :
    ∀ rem t0 acc,
      (∃ t, t0 < t ∧ t ≤ t0 + rem ∧
        (pinStacks deck path S t).sum = nfp + t + value) →
      bpLoop deck path value rem (nfp + t0) ((deck.length : Int) - 1 - (t0 : Int))
        (pinStacks deck path S t0) acc ≠ [] := by
  intro rem
  induction rem with
  | zero =>
    rintro t0 acc ⟨t, h1, h2, -⟩
    omega
  | succ n ih =>
    rintro t0 acc hex
    have hidx : ((deck.length : Int) - 1 - (t0 : Int)) - 1 =
        (deck.length : Int) - 1 - ((t0 : Int) + 1) := by ring
    have hpin : paceStep deck path (pinStacks deck path S t0)
        (((deck.length : Int) - 1 - (t0 : Int)) - 1) = pinStacks deck path S (t0 + 1) := by
      rw [hidx]; rfl
    simp only [bpLoop, hpin]
    by_cases hc : (pinStacks deck path S (t0 + 1)).sum = nfp + t0 + 1 + value
    · have hc' : ((pinStacks deck path S (t0 + 1)).sum == nfp + t0 + 1 + value) = true := by
        simp [hc]
      simp only [hc', if_true]
      exact bpLoop_ne_nil_of_acc deck path value _ _ _ _ _ (by simp)
    · have hc' : ((pinStacks deck path S (t0 + 1)).sum == nfp + t0 + 1 + value) = false := by
        simp [hc]
      simp only [hc', Bool.false_eq_true, if_false]
      obtain ⟨t, h1, h2, h3⟩ := hex
      have ht : t0 + 1 < t := by
        rcases Nat.lt_or_ge (t0 + 1) t with h | h
        · exact h
        · exfalso
          have : t = t0 + 1 := by omega
          subst this
          omega
      have hnext := ih (t0 + 1) acc ⟨t, ht, by omega, h3⟩
      have harg1 : nfp + (t0 + 1) = nfp + t0 + 1 := by omega
      have harg2 : ((deck.length : Int) - 1 - ((t0 + 1 : Nat) : Int)) =
          ((deck.length : Int) - 1 - (t0 : Int)) - 1 := by push_cast; ring
      rw [harg1, harg2] at hnext
      exact hnext

/-- C10: for every path handed to `_check_for_dist_loss` — one that
survives the capacity and team-pace filters (two players, 50-card
well-formed five-suit deck) while failing the single-hand pace filter —
`_get_pace_breakpoints(path)` returns a non-empty list of locations, so
the `min`, `max` and `locations[-1]` reads of
`_get_breakpoint_connectors` and `_solve_breakpoint` never see an empty
collection. -/
theorem claim_C10 (pf : PathFinder) (path : List Bool)
    (hN : pf.deck.length = 50) (hS : pf.suitsCount = 5) (hP : pf.numPlayers = 2)
    (hwf : WFDeck 5 pf.deck)
    (_hcap : checkForCapacityLoss pf path pf.capacity = false)
    (hteam : checkForPaceLoss pf path pf.numPlayers = false)
    (hone : checkForPaceLoss pf path 1 = true) :
    getPaceBreakpoints pf path 0 ≠ [] := by
  have hmax : pf.maxScore = 25 := by unfold PathFinder.maxScore; rw [hS]
  have hteam' : ¬(checkForPaceLoss pf path pf.numPlayers = true) := by simp [hteam]
  rw [checkForPaceLoss_iff] at hteam'
  push_neg at hteam'
  obtain ⟨hnbdr, hno⟩ := hteam'
  rw [checkForPaceLoss_iff] at hone
  rcases hone with hbdr | ⟨t, h1, h2, h3⟩
  · exact absurd (hnbdr hbdr.1) hbdr.2
  · have hb := pinStacks_bounds pf.deck path hN hwf t (by omega)
    have hsum : (pinStacks pf.deck path 5 t).sum ≤ 25 := by
      have := sum_le_of_all_le _ 5 hb.2
      rw [hb.1] at this
      omega
    rw [hS] at h3
    have ht23 : t ≤ 23 := by omega
    have hle := hno t h1 (by omega)
    rw [hS] at hle
    have heq : (pinStacks pf.deck path 5 t).sum = pf.numPlayers + t + 0 := by omega
    unfold getPaceBreakpoints
    have h0 := bpLoop_hit pf.deck path 5 0 pf.numPlayers
      (pf.maxScore - pf.numPlayers) 0 [] ⟨t, by omega, by omega, heq⟩
    simp only [Nat.add_zero, Nat.cast_zero, Int.sub_zero] at h0
    rw [hS]
    exact h0

/-- Witness for C10 at a concrete input: the unique `deckD1` path, which
survives capacity and team pace, fails single-hand pace, and has the
breakpoint list `[47]`. -/
theorem claim_C10_witness :
    checkForCapacityLoss pfD1 p0D1 pfD1.capacity = false ∧
    checkForPaceLoss pfD1 p0D1 pfD1.numPlayers = false ∧
    checkForPaceLoss pfD1 p0D1 1 = true ∧
    getPaceBreakpoints pfD1 p0D1 0 ≠ [] :=
  ⟨rfl, rfl, rfl, claim_C10 pfD1 p0D1 rfl rfl rfl (by decide) rfl rfl rfl⟩

/-! ### C1: which paths reach the distribution analysis -/

/-- C1 (amended): every path on which `check_for_infeasibility` invokes
`_check_for_dist_loss` — i.e. every member of the `dist_paths` returned
by `check_for_1p_inf`, for any batch of enumerated paths — (a) survives
the capacity filter, (b) *survives* the team-pace filter
(`_check_for_pace_loss(path, num_players)` returns `False`), and (c)
*fails* the single-hand pace filter (`_check_for_pace_loss(path, 1)`
returns `True`).  The original claim had (b) and (c) the other way
round; `claim_C1_counterexample` refutes it on the real pipeline. -/
theorem claim_C1_amended (pf : PathFinder) (ps : List (List (List Int))) (path : List Bool)
    (h : path ∈ (checkFor1pInf pf ps).2) :
    checkForCapacityLoss pf path pf.capacity = false ∧
    checkForPaceLoss pf path pf.numPlayers = false ∧
    checkForPaceLoss pf path 1 = true := by
  induction ps with
  | nil => simp [checkFor1pInf] at h
  | cons p rest ih =>
    simp only [checkFor1pInf] at h
    by_cases h1 : checkForCapacityLoss pf (pathify pf p.flatten) pf.capacity = true
    · rw [if_pos h1] at h
      exact ih h
    · rw [if_neg h1] at h
      by_cases h2 : checkForPaceLoss pf (pathify pf p.flatten) pf.numPlayers = true
      · rw [if_pos h2] at h
        exact ih h
      · rw [if_neg h2] at h
        by_cases h3 : (!checkForPaceLoss pf (pathify pf p.flatten) 1) = true
        · rw [if_pos h3] at h
          simp at h
        · rw [if_neg h3] at h
          simp only [List.mem_cons] at h
          rcases h with h | h
          · subst h
            refine ⟨by simpa using h1, by simpa using h2, ?_⟩
            simpa using h3
          · exact ih h

set_option maxRecDepth 100000 in
/-- C1 (counterexample): on `deckD1` the pipeline enumerates the single
path `psD1`; its mask `p0D1` is handed to the distribution analysis
although `_check_for_pace_loss(path, num_players)` returns `False` for
it — contradicting the claim that the distribution analysis is invoked
only on paths *failing* the team-pace filter. -/
theorem claim_C1_counterexample :
    pipelinePaths pfD1 studyDefaultOptions = Except.ok psD1 ∧
    p0D1 ∈ (checkFor1pInf pfD1 psD1).2 ∧
    checkForPaceLoss pfD1 p0D1 pfD1.numPlayers = false :=
  ⟨rfl, by decide, rfl⟩

/-- Witness for the amended C1 at a concrete input. -/
theorem claim_C1_witness :
    p0D1 ∈ (checkFor1pInf pfD1 psD1).2 ∧
    (checkForCapacityLoss pfD1 p0D1 pfD1.capacity = false ∧
     checkForPaceLoss pfD1 p0D1 pfD1.numPlayers = false ∧
     checkForPaceLoss pfD1 p0D1 1 = true) :=
  ⟨by decide, claim_C1_amended pfD1 psD1 p0D1 (by decide)⟩

/-! ### C3: capacity-filter monotonicity -/

theorem capacityLoop_eq_isSome (deck : List Card) (capacity : Nat) :
    ∀ l idx hand stks, capacityLoop deck capacity l idx hand stks =
      (capacityLoopIdx deck capacity l idx hand stks).isSome := by
  intro l
  induction l with
  | nil => intro idx hand stks; rfl
  | cons curr rest ih =>
    intro idx hand stks
    simp only [capacityLoop, capacityLoopIdx]
    by_cases hc : (!curr) = true
    · rw [if_pos hc, if_pos hc]
      exact ih _ _ _
    · rw [if_neg hc, if_neg hc]
      by_cases hp : (stks.getD (deck.getD idx dummyCard).suit 0 ==
          (deck.getD idx dummyCard).rank - 1) = true
      · rw [if_pos hp, if_pos hp]
        exact ih _ _ _
      · rw [if_neg hp, if_neg hp]
        by_cases hl : ((sAdd hand (deck.getD idx dummyCard).value).length == capacity) = true
        · rw [if_pos hl, if_pos hl]
          rfl
        · rw [if_neg hl, if_neg hl]
          exact ih _ _ _

theorem capacityLoopIdx_ge (deck : List Card) (capacity : Nat) :
    ∀ l idx hand stks i, capacityLoopIdx deck capacity l idx hand stks = some i →
      idx ≤ i := by
  intro l
  induction l with
  | nil => intro idx hand stks i h; exact absurd h (by simp [capacityLoopIdx])
  | cons curr rest ih =>
    intro idx hand stks i h
    simp only [capacityLoopIdx] at h
    by_cases hc : (!curr) = true
    · rw [if_pos hc] at h
      have := ih _ _ _ _ h
      omega
    · rw [if_neg hc] at h
      by_cases hp : (stks.getD (deck.getD idx dummyCard).suit 0 ==
          (deck.getD idx dummyCard).rank - 1) = true
      · rw [if_pos hp] at h
        have := ih _ _ _ _ h
        omega
      · rw [if_neg hp] at h
        by_cases hl : ((sAdd hand (deck.getD idx dummyCard).value).length == capacity) = true
        · rw [if_pos hl] at h
          have : idx = i := by injection h
          omega
        · rw [if_neg hl] at h
          have := ih _ _ _ _ h
          omega

/-- The capacity simulation only reads the path up to the failing index:
setting any later position to true leaves the detected loss in place. -/
theorem capacityLoop_set_true_after (deck : List Card) (capacity : Nat) :
    ∀ l idx hand stks i p, capacityLoopIdx deck capacity l idx hand stks = some i →
      i < p →
      capacityLoop deck capacity (l.set (p - idx) true) idx hand stks = true := by
  intro l
  induction l with
  | nil => intro idx hand stks i p h; exact absurd h (by simp [capacityLoopIdx])
  | cons curr rest ih =>
    intro idx hand stks i p h hip
    have hge := capacityLoopIdx_ge deck capacity _ _ _ _ _ h
    have hpos : p - idx = (p - (idx + 1)) + 1 := by omega
    rw [hpos]
    simp only [List.set_cons_succ, capacityLoop]
    simp only [capacityLoopIdx] at h
    by_cases hc : (!curr) = true
    · rw [if_pos hc] at h ⊢
      exact ih _ _ _ _ _ h hip
    · rw [if_neg hc] at h ⊢
      by_cases hp : (stks.getD (deck.getD idx dummyCard).suit 0 ==
          (deck.getD idx dummyCard).rank - 1) = true
      · rw [if_pos hp] at h ⊢
        exact ih _ _ _ _ _ h hip
      · rw [if_neg hp] at h ⊢
        by_cases hl : ((sAdd hand (deck.getD idx dummyCard).value).length == capacity) = true
        · rw [if_pos hl]
        · rw [if_neg hl] at h ⊢
          exact ih _ _ _ _ _ h hip

/-- The capacity filter fails exactly when an instrumented failing index
exists. -/
theorem checkForCapacityLoss_iff_idx (pf : PathFinder) (path : List Bool) (capacity : Nat) :
    checkForCapacityLoss pf path capacity = true ↔
      (capFailIdx pf path capacity).isSome := by
  unfold checkForCapacityLoss capFailIdx
  rw [capacityLoop_eq_isSome]

/-- C3 (amended): if `_check_for_capacity_loss(path, capacity)` proves a
loss, detected at deck index `i` (`capFailIdx`), then additionally
setting any position `p` *after* `i` to true keeps the mask failing.
The unrestricted statement — adding any true position keeps a failing
mask failing — is refuted by `claim_C3_counterexample`: adding an
earlier rank-1 position lets held cards cascade out of hand. -/
theorem claim_C3_amended (pf : PathFinder) (path : List Bool) (capacity : Nat) (p i : Nat)
    (hf : capFailIdx pf path capacity = some i) (hip : i < p)
    (_hfalse : path.getD p false = false) :
    checkForCapacityLoss pf (path.set p true) capacity = true := by
  unfold checkForCapacityLoss
  unfold capFailIdx at hf
  have := capacityLoop_set_true_after pf.deck capacity path 0 []
    (List.replicate pf.suitsCount 0) i p hf hip
  simpa using this

set_option maxRecDepth 100000 in
/-- C3 (counterexample): over the ascending deck, the mask `path3`
(ranks 2-5 of two suits and 2-3 of a third, no rank 1) fails the
capacity filter at capacity 10, but setting position 0 (a rank 1 of the
first suit) to true turns it into a passing mask. -/
theorem claim_C3_counterexample :
    checkForCapacityLoss pfAsc path3 pfAsc.capacity = true ∧
    path3.getD 0 false = false ∧
    checkForCapacityLoss pfAsc (path3.set 0 true) pfAsc.capacity = false :=
  ⟨rfl, rfl, rfl⟩

set_option maxRecDepth 100000 in
/-- Witness for the amended C3 at a concrete input (`path3` fails at
index 25; position 30 lies after it). -/
theorem claim_C3_witness :
    capFailIdx pfAsc path3 pfAsc.capacity = some 25 ∧ (25 : Nat) < 30 ∧
    path3.getD 30 false = false ∧
    checkForCapacityLoss pfAsc (path3.set 30 true) pfAsc.capacity = true :=
  ⟨rfl, by decide, rfl,
    claim_C3_amended pfAsc path3 pfAsc.capacity 30 25 rfl (by decide) rfl⟩

/-! ### C6: all endings blocked forces infeasibility -/

theorem ebind_ok {α β : Type} (a : α) (f : α → Except PyErr β) :
    (Except.ok a >>= f : Except PyErr β) = f a := rfl

theorem filter_eq_nil_of_false {α : Type} (p : α → Bool) (l : List α)
    (h : ∀ a ∈ l, p a = false) : l.filter p = [] := by
  induction l with
  | nil => rfl
  | cons a rest ih =>
    rw [List.filter_cons]
    rw [h a (by simp)]
    exact ih (fun b hb => h b (by simp [hb]))

theorem flatMap_eq_nil_of {α β : Type} (f : α → List β) (l : List α)
    (h : ∀ a ∈ l, f a = []) : l.flatMap f = [] := by
  induction l with
  | nil => rfl
  | cons a rest ih =>
    rw [List.flatMap_cons]
    rw [h a (by simp)]
    rw [List.nil_append]
    exact ih (fun b hb => h b (by simp [hb]))

theorem sbAssigns55_eq_nil (suits : List Int) (h1 h2 : List (Int × Int))
    (hb : ∀ i ∈ suits, ∀ j ∈ suits, j ≠ i →
      assignHelper ((i, 5), (j, 5)) h1 h2 false = true) :
    sbAssigns55 suits h1 h2 = [] := by
  unfold sbAssigns55
  apply flatMap_eq_nil_of
  intro i hi
  have hfs : suits.filter
      (fun j => !(j == i) && !(assignHelper ((i, 5), (j, 5)) h1 h2 false)) = [] := by
    apply filter_eq_nil_of_false
    intro j hj
    by_cases hij : j = i
    · simp [hij]
    · simp [hij, hb i hi j hj hij]
  rw [hfs]
  rfl

theorem sbAssigns45_eq_nil (suits : List Int) (h1 h2 : List (Int × Int))
    (hb : ∀ i ∈ suits, assignHelper ((i, 4), (i, 5)) h1 h2 false = true) :
    sbAssigns45 suits h1 h2 = [] := by
  unfold sbAssigns45
  rw [filter_eq_nil_of_false _ _ (fun i hi => by simp [hb i hi])]
  rfl

/-- C6: in `_solve_breakpoint`, if every candidate ending — every
ordered pair of distinct suits `i ≠ j` whose stacks at the final
pace-zero breakpoint are below 5 (the 5+5 endings) and every suit `i`
whose stack there is below 4 (the 4+5 endings) — is blocked because both
of its cards lie in the same starting hand (among the starting-hand
cards not yet played at the first breakpoint), then `_solve_breakpoint`
returns `True`: the deck path is proved infeasible. -/
theorem claim_C6 (pf : PathFinder) (path : List Bool)
    (locToCnct : List (Int × ConnEntry)) (locToStack : List (Int × List Nat))
    (m1 mf : Int) (s0 sf : List Nat)
    (hmin : pyMin (locToCnct.map Prod.fst) = Except.ok m1)
    (hmax : pyMax (locToCnct.map Prod.fst) = Except.ok mf)
    (hs0 : dictGet locToStack m1 = Except.ok s0)
    (hsf : dictGet locToStack mf = Except.ok sf)
    (h55 : ∀ i ∈ sbSuitsBelow sf 5, ∀ j ∈ sbSuitsBelow sf 5, j ≠ i →
      assignHelper ((i, 5), (j, 5)) (sbFilterHand s0 (sbHand1 pf.deck path))
        (sbFilterHand s0 (sbHand2 pf.deck path)) false = true)
    (h45 : ∀ i ∈ sbSuitsBelow sf 4,
      assignHelper ((i, 4), (i, 5)) (sbFilterHand s0 (sbHand1 pf.deck path))
        (sbFilterHand s0 (sbHand2 pf.deck path)) false = true) :
    solveBreakpoint pf path locToCnct locToStack = Except.ok true := by
  have hA55 := sbAssigns55_eq_nil (sbSuitsBelow sf 5)
    (sbFilterHand s0 (sbHand1 pf.deck path))
    (sbFilterHand s0 (sbHand2 pf.deck path)) h55
  have hA45 := sbAssigns45_eq_nil (sbSuitsBelow sf 4)
    (sbFilterHand s0 (sbHand1 pf.deck path))
    (sbFilterHand s0 (sbHand2 pf.deck path)) h45
  simp only [solveBreakpoint, hmin, hmax, hs0, hsf, ebind_ok, hA55, hA45]
  rfl

/-- Witness for C6 at a concrete input: the `(4, 4)` and `(4, 5)` of
`deckW` both sit in starting hand 1, blocking the only candidate (a 4+5
ending of the fifth suit), so the path is proved infeasible. -/
theorem claim_C6_witness :
    pyMin (cnctW.map Prod.fst) = Except.ok 11 ∧
    pyMax (cnctW.map Prod.fst) = Except.ok 11 ∧
    dictGet stackW 11 = Except.ok [5, 5, 5, 5, 3] ∧
    (∀ i ∈ sbSuitsBelow [5, 5, 5, 5, 3] 4,
      assignHelper ((i, 4), (i, 5)) (sbFilterHand [5, 5, 5, 5, 3] (sbHand1 deckW pathW))
        (sbFilterHand [5, 5, 5, 5, 3] (sbHand2 deckW pathW)) false = true) ∧
    solveBreakpoint pfW pathW cnctW stackW = Except.ok true :=
  ⟨rfl, rfl, rfl, by decide,
    claim_C6 pfW pathW cnctW stackW 11 11 [5, 5, 5, 5, 3] [5, 5, 5, 5, 3]
      rfl rfl rfl rfl (by decide) (by decide)⟩

/-! ### C9: unrecognised suits -/

theorem matchSuit_eq_chromatic (suits : List Suit) (w : List Char)
    (h : ∀ s ∈ suits, suitMatches s w = false) :
    matchSuit suits w = chromaticName := by
  induction suits with
  | nil => rfl
  | cons a rest ih =>
    simp only [matchSuit]
    rw [h a (by simp)]
    simp only [Bool.false_eq_true, if_false]
    exact ih (fun s hs => h s (by simp [hs]))

theorem pyListIndex_error (l : List (List Char)) (x : List Char) :
    ∀ e, pyListIndex l x = Except.error e → e = PyErr.valueError := by
  induction l with
  | nil =>
    intro e h
    simp only [pyListIndex] at h
    injection h with h
    exact h.symm
  | cons a rest ih =>
    intro e h
    simp only [pyListIndex] at h
    by_cases hax : (a == x) = true
    · rw [if_pos hax] at h
      exact absurd h (by simp)
    · rw [if_neg hax] at h
      cases hrec : pyListIndex rest x with
      | ok n =>
        rw [hrec] at h
        exact absurd h (by simp [Except.map])
      | error e2 =>
        rw [hrec] at h
        simp only [Except.map] at h
        injection h with h
        exact h ▸ ih e2 hrec

theorem parseToken_error_val (v : Variant) (w : List Char) (e : PyErr)
    (h : parseToken v w = Except.error e) : e = PyErr.valueError := by
  simp only [parseToken] at h
  cases hidx : pyListIndex v.suitNames (matchSuit v.suits (extractRank w).2) with
  | ok n =>
    rw [hidx, ebind_ok] at h
    exact absurd h (by simp)
  | error e2 =>
    rw [hidx] at h
    have hb : (Except.error e2 >>= fun si => Except.ok (⟨si, (extractRank w).1⟩ : Card)) =
        (Except.error e2 : Except PyErr Card) := rfl
    rw [hb] at h
    injection h with h
    exact h ▸ pyListIndex_error _ _ e2 hidx

theorem parseToken_unknown_suit (w : List Char)
    (h : ∀ s ∈ noVariant.suits, suitMatches s (extractRank w).2 = false) :
    parseToken noVariant w = Except.error PyErr.valueError := by
  simp only [parseToken]
  rw [matchSuit_eq_chromatic _ _ h]
  rfl

/-- C9 (amended): a token whose suit part matches no abbreviation, id or
name of the variant's suits is assigned the sentinel suit `"Chromatic"`,
but parsing then *raises* (`ValueError` from
`suit_names.index("Chromatic")`, since the sentinel is not a suit of the
variant) and `set_deck` aborts instead of completing.  The claim that
parsing completes without raising, leaving the sentinel to the caller,
is refuted by `claim_C9_counterexample`. -/
theorem claim_C9_amended (tokens : List (List Char)) (w : List Char)
    (hw : w ∈ tokens)
    (h : ∀ s ∈ noVariant.suits, suitMatches s (extractRank w).2 = false) :
    matchSuit noVariant.suits (extractRank w).2 = chromaticName ∧
    setDeck noVariant tokens = Except.error PyErr.valueError := by
  refine ⟨matchSuit_eq_chromatic _ _ h, ?_⟩
  induction tokens with
  | nil => exact absurd hw (by simp)
  | cons a rest ih =>
    simp only [setDeck]
    rcases List.mem_cons.mp hw with haw | hw'
    · subst haw
      rw [parseToken_unknown_suit w h]
      rfl
    · cases hpt : parseToken noVariant a with
      | ok c =>
        rw [ebind_ok]
        rw [ih hw']
        rfl
      | error e =>
        have hval := parseToken_error_val _ _ _ hpt
        subst hval
        rfl

/-- C9 (counterexample): the token `"zz3"` matches no suit; `set_deck`
assigns the sentinel but then raises `ValueError` rather than completing
— `create_bespoke_deck` returns an error, not a deck containing a
sentinel card. -/
theorem claim_C9_counterexample :
    matchSuit noVariant.suits (extractRank ['z', 'z', '3']).2 = chromaticName ∧
    createBespokeDeck [['z', 'z', '3']] = Except.error PyErr.valueError :=
  ⟨rfl, rfl⟩

/-- Witness for the amended C9 at a concrete input. -/
theorem claim_C9_witness :
    ['z', 'z', '3'] ∈ [['z', 'z', '3']] ∧
    (∀ s ∈ noVariant.suits, suitMatches s (extractRank ['z', 'z', '3']).2 = false) ∧
    (matchSuit noVariant.suits (extractRank ['z', 'z', '3']).2 = chromaticName ∧
     setDeck noVariant [['z', 'z', '3']] = Except.error PyErr.valueError) :=
  ⟨by decide, by decide,
    claim_C9_amended [['z', 'z', '3']] ['z', 'z', '3'] (by decide) (by decide)⟩

/-! ### C8: format/parse round trip -/

theorem parseToken_cardToken (c : Card)
    (hs : c.suit < 5) (hr1 : 1 ≤ c.rank) (hr5 : c.rank ≤ 5) :
    parseToken noVariant (cardToken noVariant c) = Except.ok c := by
  obtain ⟨s, r⟩ := c
  simp only at hs hr1 hr5
  interval_cases s <;> interval_cases r <;> rfl

theorem cardToken_ne_nil (c : Card)
    (hs : c.suit < 5) (hr1 : 1 ≤ c.rank) (hr5 : c.rank ≤ 5) :
    cardToken noVariant c ≠ [] := by
  obtain ⟨s, r⟩ := c
  simp only at hs hr1 hr5
  interval_cases s <;> interval_cases r <;> decide

theorem cardToken_no_space (c : Card)
    (hs : c.suit < 5) (hr1 : 1 ≤ c.rank) (hr5 : c.rank ≤ 5) :
    ∀ ch ∈ cardToken noVariant c, ch ≠ ' ' := by
  obtain ⟨s, r⟩ := c
  simp only at hs hr1 hr5
  interval_cases s <;> interval_cases r <;> decide

theorem foldl_append_tokens (v : Variant) (deck : List Card) :
    ∀ acc, deck.foldl (fun acc c => acc ++ cardToken v c ++ [' ']) acc =
      acc ++ deck.flatMap (fun c => cardToken v c ++ [' ']) := by
  induction deck with
  | nil => intro acc; simp
  | cons c cs ih =>
    intro acc
    rw [List.foldl_cons, ih, List.flatMap_cons]
    simp [List.append_assoc]

theorem reprDeck_eq_flatMap (v : Variant) (deck : List Card) :
    reprDeck v deck = (deck.flatMap (fun c => cardToken v c ++ [' '])).dropLast := by
  unfold reprDeck
  rw [foldl_append_tokens]
  rw [List.nil_append]

theorem splitWsAux_trailing (s : List Char) :
    ∀ cur, splitWsAux (s ++ [' ']) cur = splitWsAux s cur := by
  induction s with
  | nil =>
    intro cur
    by_cases hc : cur.isEmpty
    · simp [splitWsAux, hc]
    · simp [splitWsAux, hc]
  | cons c cs ih =>
    intro cur
    by_cases hc : (c == ' ') = true
    · by_cases hcur : cur.isEmpty
      · simp only [List.cons_append, splitWsAux, hc, if_true, hcur]
        exact ih []
      · simp only [List.cons_append, splitWsAux, hc, if_true, hcur]
        simp only [Bool.false_eq_true, if_false, List.append_eq]
        rw [ih []]
    · simp only [List.cons_append, splitWsAux, hc, Bool.false_eq_true, if_false]
      exact ih (c :: cur)

theorem splitWsAux_token (rest : List Char) :
    ∀ tok cur, (∀ ch ∈ tok, ch ≠ ' ') → (cur ≠ [] ∨ tok ≠ []) →
      splitWsAux (tok ++ ' ' :: rest) cur = (cur.reverse ++ tok) :: splitWs rest := by
  intro tok
  induction tok with
  | nil =>
    intro cur hsp hne
    have hcur : cur ≠ [] := by
      rcases hne with h | h
      · exact h
      · exact absurd rfl h
    have hcur' : cur.isEmpty = false := by
      cases cur with
      | nil => exact absurd rfl hcur
      | cons a l => rfl
    simp [splitWsAux, hcur', splitWs]
  | cons c cs ih =>
    intro cur hsp hne
    have hc : (c == ' ') = false := by
      have := hsp c (by simp)
      simpa using this
    simp only [List.cons_append, splitWsAux, hc, Bool.false_eq_true, if_false,
        List.append_eq]
    rw [ih (c :: cur) (fun ch hch => hsp ch (by simp [hch])) (Or.inl (by simp))]
    simp

theorem splitWs_flatMap_tokens (tokens : List (List Char))
    (h : ∀ t ∈ tokens, t ≠ [] ∧ ∀ ch ∈ t, ch ≠ ' ') :
    splitWs (tokens.flatMap (fun t => t ++ [' '])) = tokens := by
  induction tokens with
  | nil => rfl
  | cons t ts ih =>
    rw [List.flatMap_cons]
    have hassoc : (t ++ [' ']) ++ ts.flatMap (fun t => t ++ [' ']) =
        t ++ (' ' :: ts.flatMap (fun t => t ++ [' '])) := by
      simp [List.append_assoc]
    rw [hassoc]
    unfold splitWs
    rw [splitWsAux_token _ t [] (h t (by simp)).2 (Or.inr (h t (by simp)).1)]
    rw [List.reverse_nil, List.nil_append]
    rw [ih (fun u hu => h u (by simp [hu]))]

theorem flatMap_tokens_concat (f : Card → List Char) (c : Card) (cs : List Card) :
    ∃ M, (c :: cs).flatMap (fun x => f x ++ [' ']) = M ++ [' '] := by
  induction cs generalizing c with
  | nil => exact ⟨f c, by simp⟩
  | cons c2 cs2 ih =>
    obtain ⟨M2, hM2⟩ := ih c2
    refine ⟨f c ++ [' '] ++ M2, ?_⟩
    rw [List.flatMap_cons, hM2]
    simp [List.append_assoc]

theorem setDeck_map_cardToken (deck : List Card) (hwf : WFDeck 5 deck) :
    setDeck noVariant (deck.map (cardToken noVariant)) = Except.ok deck := by
  induction deck with
  | nil => rfl
  | cons c cs ih =>
    rw [List.map_cons]
    simp only [setDeck]
    obtain ⟨hs, hr1, hr5⟩ := hwf c (by simp)
    rw [parseToken_cardToken c hs hr1 hr5, ebind_ok]
    rw [ih (fun x hx => hwf x (by simp [hx]))]
    rfl

/-- C8: for every well-formed No-Variant deck (suit indices below 5,
ranks 1..5 — every genuine deck), formatting with `Deck.__repr__` and
parsing the whitespace-split tokens back with `create_bespoke_deck`
yields the identical sequence of `(suit index, rank)` pairs. -/
theorem claim_C8 (deck : List Card) (hwf : WFDeck 5 deck) :
    createBespokeDeck (splitWs (reprDeck noVariant deck)) = Except.ok deck := by
  have hsplit : splitWs (reprDeck noVariant deck) = deck.map (cardToken noVariant) := by
    rw [reprDeck_eq_flatMap]
    cases deck with
    | nil => rfl
    | cons c cs =>
      obtain ⟨M, hM⟩ := flatMap_tokens_concat (cardToken noVariant) c cs
      rw [hM]
      rw [List.dropLast_concat]
      have hfull : splitWs (M ++ [' ']) = (c :: cs).map (cardToken noVariant) := by
        rw [← hM]
        have htoks : ∀ t ∈ (c :: cs).map (cardToken noVariant),
            t ≠ [] ∧ ∀ ch ∈ t, ch ≠ ' ' := by
          intro t ht
          obtain ⟨x, hx, hxt⟩ := List.mem_map.mp ht
          obtain ⟨hs, hr1, hr5⟩ := hwf x hx
          subst hxt
          exact ⟨cardToken_ne_nil x hs hr1 hr5, cardToken_no_space x hs hr1 hr5⟩
        have := splitWs_flatMap_tokens ((c :: cs).map (cardToken noVariant)) htoks
        rw [← this]
        have hcomp : ((c :: cs).map (cardToken noVariant)).flatMap (fun t => t ++ [' ']) =
            (c :: cs).flatMap (fun x => cardToken noVariant x ++ [' ']) := by
          rw [List.flatMap_map]
        rw [hcomp]
      unfold splitWs at hfull ⊢
      rw [splitWsAux_trailing M []] at hfull
      exact hfull
  rw [hsplit]
  exact setDeck_map_cardToken deck hwf

/-- Witness for C8 at a concrete input. -/
theorem claim_C8_witness :
    WFDeck 5 deckW ∧
    createBespokeDeck (splitWs (reprDeck noVariant deckW)) = Except.ok deckW :=
  ⟨by decide, claim_C8 deckW (by decide)⟩

/-! ### C7: every emitted suit path picks recorded locations -/

theorem ebind_err {α β : Type} (e : PyErr) (f : α → Except PyErr β) :
    (Except.error e >>= f : Except PyErr β) = Except.error e := rfl

theorem eok_of_bind_pure {α : Type} (m : Except PyErr α) (v : α)
    (h : (m >>= fun r => Except.ok r) = Except.ok v) : m = Except.ok v := by
  cases m with
  | ok a => exact h
  | error e => exact h

theorem pyIndex_ok_bounds {α : Type} (l : List α) (i : Int) (x : α)
    (h : pyIndex l i = Except.ok x) : -(l.length : Int) ≤ i ∧ i < (l.length : Int) := by
  unfold pyIndex at h
  by_cases hb : -(l.length : Int) ≤ i ∧ i < (l.length : Int)
  · exact hb
  · rw [if_neg hb] at h
    exact absurd h (by simp)

theorem pyIndex_ok_getD {α : Type} (l : List α) (i : Int) (x : α) (d : α)
    (h : pyIndex l i = Except.ok x) (h0 : 0 ≤ i) : l.getD i.toNat d = x := by
  obtain ⟨-, hlt⟩ := pyIndex_ok_bounds l i x h
  unfold pyIndex at h
  rw [if_pos (And.intro (by omega) hlt), Int.emod_eq_of_lt h0 hlt] at h
  cases hg : l.get? i.toNat with
  | none => rw [hg] at h; exact absurd h (by simp)
  | some y =>
    rw [hg] at h
    injection h with h
    subst h
    have hbd : i.toNat < l.length := by omega
    rw [List.getD_eq_getElem l d hbd]
    have := List.get?_eq_getElem? l i.toNat
    rw [hg, List.getElem?_eq_getElem hbd] at this
    injection this with this
    exact this.symm

theorem pyIndex_ok_mem {α : Type} (l : List α) (i : Int) (x : α)
    (h : pyIndex l i = Except.ok x) : x ∈ l := by
  unfold pyIndex at h
  by_cases hb : -(l.length : Int) ≤ i ∧ i < (l.length : Int)
  · rw [if_pos hb] at h
    cases hg : l.get? (Int.toNat (i % (l.length : Int))) with
    | none => rw [hg] at h; exact absurd h (by simp)
    | some y =>
      rw [hg] at h
      injection h with h
      subst h
      exact List.get?_mem hg
  · rw [if_neg hb] at h
    exact absurd h (by simp)

theorem take_pred_eq (l : List Int) (m : List Int) (n : Nat) (h : l.take n = m) :
    l.take (n - 1) = m.take (n - 1) := by
  rw [← h, List.take_take]
  congr 1
  omega

/-- The central invariant of `identify_recurse`: on any successful run
from a state whose path holds one committed location per rank below the
current index, the `_locations` array is untouched, the final state's
path still begins with the committed entries below the current rank, and
every emitted path extends the entry path by one location per remaining
rank, each drawn from the locations recorded for its rank. -/
theorem identifyRecurse_spec (o : ShapeOptions) (sh : List Nat) :
    ∀ fuel st paths st2,
      identifyRecurse o sh fuel st = Except.ok (paths, st2) →
      st.path.length = st.index →
      st2.locations = st.locations ∧
      st2.path.take (st.index - 1) = st.path.take (st.index - 1) ∧
      st.index - 1 ≤ st2.path.length ∧
      ∀ p ∈ paths, ∃ suffix, p = st.path ++ suffix ∧
        suffix.length = st.locations.length - (st.index + 1) ∧
        ∀ k, k < suffix.length →
          suffix.getD k 0 ∈ st.locations.getD (st.index + 1 + k) [] := by
  intro fuel
  induction fuel with
  | zero =>
    intro st paths st2 h
    exact absurd h (by simp [identifyRecurse])
  | succ n ih =>
    intro st paths st2 h hlen
    simp only [identifyRecurse] at h
    by_cases hbase : (st.index + 1 == st.locations.length) = true
    · rw [if_pos hbase] at h
      simp only [Except.ok.injEq, Prod.mk.injEq] at h
      obtain ⟨hp, hs⟩ := h
      have hL : st.index + 1 = st.locations.length := by simpa using hbase
      subst hp
      refine ⟨by rw [← hs], ?_, ?_, ?_⟩
      · rw [← hs]
        simp only
        rw [List.dropLast_eq_take, hlen]
        rw [List.take_take]
        congr 1
        omega
      · rw [← hs]
        simp only [List.length_dropLast, hlen]
        omega
      · intro p hp
        simp only [List.mem_singleton] at hp
        subst hp
        refine ⟨[], by simp, by simp [← hL], by simp⟩
    · rw [if_neg hbase] at h
      cases hloc : pyIndex st.locations ((st.index + 1 : Nat) : Int) with
      | error e => rw [hloc, ebind_err] at h; exact absurd h (by simp)
      | ok locs =>
        rw [hloc, ebind_ok] at h
        cases hpl : pyIndex st.playable ((st.index + 1 : Nat) : Int) with
        | error e => rw [hpl, ebind_err] at h; exact absurd h (by simp)
        | ok playable =>
          rw [hpl, ebind_ok] at h
          have hlocsval : st.locations.getD (st.index + 1) [] = locs := by
            have := pyIndex_ok_getD st.locations ((st.index + 1 : Nat) : Int) locs []
              hloc (by omega)
            simpa using this
          have hmemrank : st.index + 1 < st.locations.length := by
            have hb := (pyIndex_ok_bounds _ _ _ hloc).2
            omega
          -- conclusions of a sub-call made through `_helper` from any
          -- state agreeing with the entry state below the current rank
          have hsub : ∀ (stb : SIState) (loc pl : Int) paths3 st3,
              stb.locations = st.locations →
              stb.index = st.index + 1 →
              stb.path = st.path →
              identifyRecurse o sh n (siHelperState stb loc pl) =
                Except.ok (paths3, st3) →
              loc ∈ locs →
              st3.locations = st.locations ∧
              st3.path.take st.index = st.path ∧
              st.index ≤ st3.path.length ∧
              ∀ p ∈ paths3, ∃ suffix, p = st.path ++ suffix ∧
                suffix.length = st.locations.length - (st.index + 1) ∧
                ∀ k, k < suffix.length →
                  suffix.getD k 0 ∈ st.locations.getD (st.index + 1 + k) [] := by
            intro stb loc pl paths3 st3 e1 e2 e3 hrun hmemloc
            have hentry : (siHelperState stb loc pl).path.length =
                (siHelperState stb loc pl).index := by
              simp [siHelperState, e2, e3, hlen]
            obtain ⟨g1, g2, g3, g4⟩ := ih _ _ _ hrun hentry
            simp only [siHelperState, e1, e2, e3] at g1 g2 g3 g4
            refine ⟨g1, ?_, by omega, ?_⟩
            · rw [Nat.add_sub_cancel] at g2
              rw [g2, List.take_append_of_le_length (by omega)]
              rw [← hlen, List.take_length]
            · intro p hp
              obtain ⟨suffix, hps, hslen, hsmem⟩ := g4 p hp
              refine ⟨loc :: suffix, by simpa [List.append_assoc] using hps, ?_, ?_⟩
              · simp only [List.length_cons, hslen]
                omega
              · intro k hk
                cases k with
                | zero =>
                  simp only [List.getD_cons_zero, Nat.add_zero]
                  rw [hlocsval]
                  exact hmemloc
                | succ m =>
                  simp only [List.getD_cons_succ]
                  have hm := hsmem m (by simpa using hk)
                  have harith : st.index + 1 + 1 + m = st.index + 1 + (m + 1) := by
                    omega
                  rw [harith] at hm
                  exact hm
          by_cases hshr : (st.index + 1) ∈ sh
          · rw [if_pos hshr] at h
            -- the loop over all recorded copies of a distribution-concern rank
            have hfold : ∀ (ls : List Int) (acc : List (List Int) × SIState)
                (res : List (List Int) × SIState),
                (∀ x ∈ ls, x ∈ locs) →
                acc.2.locations = st.locations →
                acc.2.index = st.index + 1 →
                acc.2.path = st.path →
                (∀ p ∈ acc.1, ∃ suffix, p = st.path ++ suffix ∧
                  suffix.length = st.locations.length - (st.index + 1) ∧
                  ∀ k, k < suffix.length →
                    suffix.getD k 0 ∈ st.locations.getD (st.index + 1 + k) []) →
                List.foldlM
                  (fun (acc : List (List Int) × SIState) loc => do
                    let pl ← pyMaxOpt loc playable
                    let r ← identifyRecurse o sh n (siHelperState acc.2 loc pl)
                    Except.ok (acc.1 ++ r.1, siRewind (st.index + 1) r.2))
                  acc ls = Except.ok res →
                res.2.locations = st.locations ∧
                res.2.index = st.index + 1 ∧
                res.2.path = st.path ∧
                ∀ p ∈ res.1, ∃ suffix, p = st.path ++ suffix ∧
                  suffix.length = st.locations.length - (st.index + 1) ∧
                  ∀ k, k < suffix.length →
                    suffix.getD k 0 ∈ st.locations.getD (st.index + 1 + k) [] := by
              intro ls
              induction ls with
              | nil =>
                intro acc res hmem g1 g2 g3 g4 hrun
                simp only [List.foldlM_nil] at hrun
                injection hrun with hrun
                subst hrun
                exact ⟨g1, g2, g3, g4⟩
              | cons x xs ihl =>
                intro acc res hmem g1 g2 g3 g4 hrun
                rw [List.foldlM_cons] at hrun
                cases hmx : pyMaxOpt x playable with
                | error e => rw [hmx, ebind_err] at hrun; exact Except.noConfusion hrun
                | ok pl =>
                  rw [hmx, ebind_ok] at hrun
                  cases hrec : identifyRecurse o sh n (siHelperState acc.2 x pl) with
                  | error e => rw [hrec, ebind_err] at hrun; exact Except.noConfusion hrun
                  | ok r =>
                    rw [hrec, ebind_ok] at hrun
                    obtain ⟨q1, q2, q3, q4⟩ :=
                      hsub acc.2 x pl r.1 r.2 g1 g2 g3 hrec (hmem x (by simp))
                    refine ihl (acc.1 ++ r.1, siRewind (st.index + 1) r.2) res
                      (fun y hy => hmem y (by simp [hy])) ?_ ?_ ?_ ?_ hrun
                    · simp only [siRewind]
                      exact q1
                    · rfl
                    · simp only [siRewind]
                      rw [Nat.add_sub_cancel]
                      exact q2
                    · intro p hp
                      rcases List.mem_append.mp hp with hp | hp
                      · exact g4 p hp
                      · exact q4 p hp
            have hfr := eok_of_bind_pure _ _ h
            obtain ⟨f1, f2, f3, f4⟩ := hfold locs ([], { st with index := st.index + 1 })
              (paths, st2) (fun x hx => hx) rfl rfl rfl (by simp) hfr
            have f3' : st2.path = st.path := f3
            refine ⟨f1, by rw [f3'], ?_, f4⟩
            rw [f3', hlen]
            omega
          · rw [if_neg hshr] at h
            cases hpv : optIntVal playable with
            | error e => rw [hpv, ebind_err] at h; exact absurd h (by simp)
            | ok pl =>
              rw [hpv, ebind_ok] at h
              cases ha0 : pyIndex locs 0 with
              | error e => rw [ha0, ebind_err] at h; exact absurd h (by simp)
              | ok a0 =>
                rw [ha0, ebind_ok] at h
                by_cases hgt : a0 > pl
                · rw [if_pos hgt] at h
                  obtain ⟨q1, q2, q3, q4⟩ :=
                    hsub { st with index := st.index + 1 } a0 a0 paths st2
                      rfl rfl rfl h (pyIndex_ok_mem locs 0 a0 ha0)
                  exact ⟨q1, take_pred_eq st2.path st.path st.index q2, by omega, q4⟩
                · rw [if_neg hgt] at h
                  cases ha1 : pyIndex locs (-1) with
                  | error e => rw [ha1, ebind_err] at h; exact absurd h (by simp)
                  | ok a1 =>
                    rw [ha1, ebind_ok] at h
                    by_cases hlt : a1 < pl
                    · rw [if_pos hlt] at h
                      obtain ⟨q1, q2, q3, q4⟩ :=
                        hsub { st with index := st.index + 1 } a1 pl paths st2
                          rfl rfl rfl h (pyIndex_ok_mem locs (-1) a1 ha1)
                      exact ⟨q1, take_pred_eq st2.path st.path st.index q2, by omega, q4⟩
                    · rw [if_neg hlt] at h
                      cases hl1 : pyIndex locs ((pyBisect locs pl : Int) - 1) with
                      | error e => rw [hl1, ebind_err] at h; exact absurd h (by simp)
                      | ok loc1 =>
                        rw [hl1, ebind_ok] at h
                        cases hr1 : identifyRecurse o sh n
                            (siHelperState { st with index := st.index + 1 } loc1 pl) with
                        | error e => rw [hr1, ebind_err] at h; exact absurd h (by simp)
                        | ok r1 =>
                          rw [hr1, ebind_ok] at h
                          obtain ⟨q1, q2, q3, q4⟩ :=
                            hsub { st with index := st.index + 1 } loc1 pl r1.1 r1.2
                              rfl rfl rfl hr1 (pyIndex_ok_mem locs _ loc1 hl1)
                          cases hl2 : pyIndex locs ((pyBisect locs pl : Int) - 1 + 1) with
                          | error e => rw [hl2, ebind_err] at h; exact absurd h (by simp)
                          | ok loc2 =>
                            rw [hl2, ebind_ok] at h
                            have hrwpath : (siRewind (st.index + 1) r1.2).path = st.path := by
                              simp only [siRewind]
                              rw [Nat.add_sub_cancel]
                              exact q2
                            cases hr2 : identifyRecurse o sh n
                                (siHelperState (siRewind (st.index + 1) r1.2) loc2 loc2) with
                            | error e => rw [hr2, ebind_err] at h; exact absurd h (by simp)
                            | ok r2 =>
                              rw [hr2, ebind_ok] at h
                              simp only [Except.ok.injEq, Prod.mk.injEq] at h
                              obtain ⟨hp, hs⟩ := h
                              subst hp
                              subst hs
                              obtain ⟨w1, w2, w3, w4⟩ :=
                                hsub (siRewind (st.index + 1) r1.2) loc2 loc2 r2.1 r2.2
                                  (by simp only [siRewind]; exact q1) rfl hrwpath hr2
                                  (pyIndex_ok_mem locs _ loc2 hl2)
                              refine ⟨w1, take_pred_eq r2.2.path st.path st.index w2,
                                by omega, ?_⟩
                              intro p hp
                              rcases List.mem_append.mp hp with hp | hp
                              · exact q4 p hp
                              · exact w4 p hp

theorem getShapeLoop_locs_length (o : ShapeOptions) :
    ∀ (cards : List LCard) (isFirst isPlayed : List Bool) (ord : List Nat)
      (locs : List (List Int)),
      ((getShapeLoop o cards isFirst isPlayed ord locs).2).length = locs.length := by
  intro cards
  induction cards with
  | nil => intro isFirst isPlayed ord locs; rfl
  | cons c rest ih =>
    intro isFirst isPlayed ord locs
    simp only [getShapeLoop]
    by_cases h1 : (pyGetD isFirst false (c.rank : Int) && o.isBdr c) = true
    · rw [if_pos h1]
      exact ih _ _ _ _
    · rw [if_neg h1]
      by_cases h2 : pyGetD isPlayed false (c.rank : Int) = true
      · rw [if_pos h2]
        exact ih _ _ _ _
      · rw [if_neg h2]
        rw [ih _ _ _ _]
        simp [pySet]

theorem shapeLocations_length (o : ShapeOptions) (cards : List LCard) :
    (shapeLocations o cards).length = 6 := by
  unfold shapeLocations getShape
  exact getShapeLoop_locs_length o cards _ _ _ _

/-- C7: for every card list and every `ShapeIdentifier` configuration,
every suit path emitted by `identify` has exactly one entry per rank
1..5, and its rank-`i` entry is one of the deck locations recorded for
rank `i` by `get_shape` (`p_i ∈ _locations[i]`), despite the shared
mutable scratch state rewound on backtracking. -/
theorem claim_C7 (o : ShapeOptions) (cards : List LCard) (paths : List (List Int))
    (h : identify o cards = Except.ok paths) :
    ∀ p ∈ paths, p.length = 5 ∧
      ∀ i, 1 ≤ i → i ≤ 5 →
        p.getD (i - 1) 0 ∈ (shapeLocations o cards).getD i [] := by
  have hrun0 : (identifyRecurse o (getShape o cards).shRanks 8 (getShape o cards).state >>=
      fun r => Except.ok r.1) = Except.ok paths := h
  cases hrun : identifyRecurse o (getShape o cards).shRanks 8 (getShape o cards).state with
  | error e =>
    rw [hrun, ebind_err] at hrun0
    exact absurd hrun0 (by simp)
  | ok r =>
    rw [hrun, ebind_ok] at hrun0
    injection hrun0 with hrun0
    obtain ⟨-, -, -, hmem⟩ := identifyRecurse_spec o (getShape o cards).shRanks 8
      (getShape o cards).state r.1 r.2 hrun rfl
    intro p hp
    rw [← hrun0] at hp
    obtain ⟨suffix, hps, hslen, hsmem⟩ := hmem p hp
    have hL : (getShape o cards).state.locations.length = 6 :=
      shapeLocations_length o cards
    have hpath0 : (getShape o cards).state.path = ([] : List Int) := rfl
    have hidx0 : (getShape o cards).state.index = 0 := rfl
    constructor
    · rw [hps, hpath0, List.nil_append, hslen, hidx0, hL]
    · intro i h1 h5
      have hk := hsmem (i - 1) (by rw [hslen, hidx0, hL]; omega)
      rw [hidx0] at hk
      have harith : 0 + 1 + (i - 1) = i := by omega
      rw [harith] at hk
      rw [hps, hpath0, List.nil_append]
      exact hk

/-- Witness for C7 at a concrete input: the fifth suit of the worked
deck, whose ten cards identify to the single suit path
`(40, 47, 44, 46, 49)` with each entry drawn from the recorded
locations of its rank. -/
theorem claim_C7_witness :
    identify studyDefaultOptions
      [⟨1, 40⟩, ⟨1, 41⟩, ⟨1, 42⟩, ⟨3, 43⟩, ⟨3, 44⟩, ⟨4, 45⟩, ⟨4, 46⟩,
        ⟨2, 47⟩, ⟨2, 48⟩, ⟨5, 49⟩] =
      Except.ok [[40, 47, 44, 46, 49]] ∧
    ∀ p ∈ [[40, 47, 44, 46, 49]], p.length = 5 ∧
      ∀ i, 1 ≤ i → i ≤ 5 →
        p.getD (i - 1) 0 ∈ (shapeLocations studyDefaultOptions
          [⟨1, 40⟩, ⟨1, 41⟩, ⟨1, 42⟩, ⟨3, 43⟩, ⟨3, 44⟩, ⟨4, 45⟩, ⟨4, 46⟩,
            ⟨2, 47⟩, ⟨2, 48⟩, ⟨5, 49⟩]).getD i [] :=
  ⟨rfl, claim_C7 studyDefaultOptions
    [⟨1, 40⟩, ⟨1, 41⟩, ⟨1, 42⟩, ⟨3, 43⟩, ⟨3, 44⟩, ⟨4, 45⟩, ⟨4, 46⟩,
      ⟨2, 47⟩, ⟨2, 48⟩, ⟨5, 49⟩] [[40, 47, 44, 46, 49]] rfl⟩

end HanabiEndgames
